import Mathlib

/-!
A shallow embedding of the urwidtrees repository (src/walkers.py and
src/widget.py) together with proofs settling the frozen claims about it.

Conventions of the embedding:
* Python `None` becomes `Option.none`; a fallible function that can raise an
  uncaught exception returns `Except Unit _` (`.error ()` standing for the
  escaped Python exception).
* Python integers are `Int`; Python list indexing `l[i]` (which wraps
  negative indices and raises `IndexError` out of range) is `pyIdx`.
* `SimpleTreeWalker` positions are tuples of integers, embedded as
  `List Int`.
-/

namespace UrwidTrees

/-- Python list indexing `l[i]`: wraps a negative index once, `none` when the
index (after wrapping) is out of range (the `IndexError` case; whether that
error is caught is decided at each call site of the source). -/
def pyIdx {α : Type} (l : List α) (i : Int) : Option α :=
  if 0 ≤ i then l.get? i.toNat
  else if 0 ≤ i + l.length then l.get? (i + (l.length : Int)).toNat
  else none

/-- A node of the fixed in-memory tree accepted by `SimpleTreeWalker`:
a `(widget, children)` tuple where `children` is either `None` or a list of
nodes (src/walkers.py, class docstring of `SimpleTreeWalker`). -/
inductive STree (α : Type) where
  | node : α → Option (List (STree α)) → STree α

namespace SimpleTW

/-- `SimpleTreeWalker._get_subtree` (src/walkers.py lines 231-241).
`path[0]` on an empty path raises `IndexError` inside the `try` (caught);
the recursive step indexes `treelist[path[0]]` outside any `try`, so an
out-of-range index there, or recursing into `None` children with two or
more path components left, escapes as an uncaught exception (`.error ()`). -/
def getSubtree {α : Type} : List (STree α) → List Int → Except Unit (Option (STree α))
  | _, [] => .ok none
  | tl, [i] => .ok (pyIdx tl i)
  | tl, i :: rest =>
      match pyIdx tl i with
      | none => .error ()
      | some (.node _ none) =>
          if rest.length > 1 then .error () else .ok none
      | some (.node _ (some ch)) => getSubtree ch rest

/-- `SimpleTreeWalker._get_node` (lines 243-250) for a non-`None` path:
the widget stored at the subtree found for the path. -/
def getNode {α : Type} (tl : List (STree α)) (p : List Int) : Except Unit (Option α) := do
  let st ← getSubtree tl p
  return st.map (fun t => match t with | .node w _ => w)

/-- `SimpleTreeWalker._confirm_pos` (lines 252-257): the candidate position
itself when a widget is found there, `None` otherwise. -/
def confirmPos {α : Type} (tl : List (STree α)) (p : List Int) :
    Except Unit (Option (List Int)) := do
  let n ← getNode tl p
  return if n.isSome then some p else none

/-- `SimpleTreeWalker.parent_position` (lines 263-268) for a non-`None`
position: strip the last index, `None` for length-one positions. -/
def parentPosition (p : List Int) : Option (List Int) :=
  if p.length > 1 then some p.dropLast else none

/-- `SimpleTreeWalker.first_child_position` (lines 270-271):
append index 0 and confirm by lookup. -/
def firstChildPosition {α : Type} (tl : List (STree α)) (p : List Int) :
    Except Unit (Option (List Int)) :=
  confirmPos tl (p ++ [0])

/-- `SimpleTreeWalker.last_child_position` (lines 273-280): look up the
subtree; when its children entry is a list, append `len(children) - 1`
WITHOUT confirming the result by a lookup. -/
def lastChildPosition {α : Type} (tl : List (STree α)) (p : List Int) :
    Except Unit (Option (List Int)) := do
  let st ← getSubtree tl p
  match st with
  | none => return none
  | some (.node _ none) => return none
  | some (.node _ (some ch)) => return some (p ++ [(ch.length : Int) - 1])

/-- `SimpleTreeWalker.next_sibling_position` (lines 282-283): increment the
last index and confirm.  `pos[-1]` on an empty tuple raises. -/
def nextSiblingPosition {α : Type} (tl : List (STree α)) (p : List Int) :
    Except Unit (Option (List Int)) :=
  match p.getLast? with
  | none => .error ()
  | some last => confirmPos tl (p.dropLast ++ [last + 1])

/-- `SimpleTreeWalker.prev_sibling_position` (lines 285-286): decrement the
last index when it is positive (no confirmation), else `None`. -/
def prevSiblingPosition (p : List Int) : Except Unit (Option (List Int)) :=
  match p.getLast? with
  | none => .error ()
  | some last => .ok (if last > 0 then some (p.dropLast ++ [last - 1]) else none)

/-- A valid `SimpleTreeWalker` position: per the spec a sequence of
non-negative child indices, and it resolves to a widget. -/
def validPos {α : Type} (tl : List (STree α)) (p : List Int) : Prop :=
  (∀ i ∈ p, 0 ≤ i) ∧ ∃ w, getNode tl p = .ok (some w)

def tl7 : List (STree Nat) := [.node 0 none, .node 1 none]

def tl3 : List (STree Nat) := [.node 7 (some [])]

end SimpleTW

/-- Content stored at a node of the outer tree fed to `NestedTreeWalker`:
either a plain widget or an embedded list walker (`is_list_walker` is true
exactly for the latter).  Widgets and list elements are identified by
naturals. -/
inductive NPayload where
  | plain : Nat → NPayload
  | lst : List Nat → NPayload
deriving DecidableEq

abbrev NTreeList := List (STree NPayload)

/-- A `NestedTreeWalker` position (src/walkers.py lines 108-119): a 1-tuple
`(position1,)` addressing the outer tree, or a 2-tuple
`(position1, position2)` addressing an element of an embedded list walker. -/
inductive NPos where
  | one : List Int → NPos
  | two : List Int → Int → NPos
deriving DecidableEq

/-- The first component `pos[0]` of a nested position. -/
def NPos.outer : NPos → List Int
  | .one q => q
  | .two q _ => q

/-- Modelled from the external urwid list-walker interface: the first
position yielded by `positions(reverse=...)` of an embedded list walker
with `l.length` elements — `0` forward, `len - 1` in reverse, and an
immediately exhausted iterator (`StopIteration`) when the list is empty. -/
def listFirstPosition (l : List Nat) (reverse : Bool) : Option Int :=
  if l.length = 0 then none
  else if reverse then some ((l.length : Int) - 1) else some 0

/-- Modelled from the external urwid list-walker interface: `get_next`
returns the element one past `s`, or `(None, None)` at the end. -/
def listGetNext (l : List Nat) (s : Int) : Option Int :=
  if 0 ≤ s + 1 ∧ s + 1 < (l.length : Int) then some (s + 1) else none

/-- Modelled from the external urwid list-walker interface: `get_prev`
returns the element one before `s`, or `(None, None)` at the front. -/
def listGetPrev (l : List Nat) (s : Int) : Option Int :=
  if 0 ≤ s - 1 ∧ s - 1 < (l.length : Int) then some (s - 1) else none

namespace NestedTW

/-- `NestedTreeWalker._expand_from` (src/walkers.py lines 141-154) with a
`SimpleTreeWalker` as the wrapped outer walker.  The `while True` loop is
driven by `fuel`; `.error ()` stands both for an escaped exception and for
fuel exhaustion (every claim proved below holds for every fuel).  A
position whose widget is missing (`None`) is not a list walker, hence the
`_ =>` branch returns it as a 1-tuple exactly like a plain widget. -/
def expandFrom (tl : NTreeList) (reverse : Bool) :
    Nat → Option (List Int) → Except Unit (Option NPos)
  | 0, _ => .error ()
  | _ + 1, none => .ok none
  | fuel + 1, some pp =>
      match SimpleTW.getNode tl pp with
      | .error e => .error e
      | .ok (some (.lst l)) =>
          match listFirstPosition l reverse with
          | some s => .ok (some (.two pp s))
          | none =>
              match (if reverse then SimpleTW.prevSiblingPosition pp
                     else SimpleTW.nextSiblingPosition tl pp) with
              | .error e => .error e
              | .ok succ => expandFrom tl reverse fuel succ
      | .ok _ => .ok (some (.one pp))

/-- `NestedTreeWalker.parent_position` (lines 133-139): the outer walker's
parent of the FIRST component, wrapped as a 1-tuple (`None` when absent),
for both 1-tuple and 2-tuple positions. -/
def parentPosition (pos : NPos) : Option NPos :=
  match pos with
  | .one q => (SimpleTW.parentPosition q).map NPos.one
  | .two q _ => (SimpleTW.parentPosition q).map NPos.one

/-- `NestedTreeWalker.first_child_position` (lines 156-162). -/
def firstChildPosition (tl : NTreeList) (fuel : Nat) (pos : NPos) :
    Except Unit (Option NPos) :=
  match pos with
  | .two _ _ => .ok none
  | .one q =>
      match SimpleTW.firstChildPosition tl q with
      | .error e => .error e
      | .ok pp => expandFrom tl false fuel pp

/-- `NestedTreeWalker.last_child_position` (lines 164-170). -/
def lastChildPosition (tl : NTreeList) (fuel : Nat) (pos : NPos) :
    Except Unit (Option NPos) :=
  match pos with
  | .two _ _ => .ok none
  | .one q =>
      match SimpleTW.lastChildPosition tl q with
      | .error e => .error e
      | .ok pp => expandFrom tl true fuel pp

/-- `NestedTreeWalker.next_sibling_position` (lines 172-182).  On a 2-tuple
the embedded walker's `get_next` is tried first; `get_next` on a plain
widget or a missing one raises `AttributeError` (`.error ()`). -/
def nextSiblingPosition (tl : NTreeList) (fuel : Nat) (pos : NPos) :
    Except Unit (Option NPos) :=
  match pos with
  | .two q s =>
      match SimpleTW.getNode tl q with
      | .error e => .error e
      | .ok (some (.lst l)) =>
          match listGetNext l s with
          | some s2 => .ok (some (.two q s2))
          | none =>
              match SimpleTW.nextSiblingPosition tl q with
              | .error e => .error e
              | .ok pp => expandFrom tl false fuel pp
      | .ok _ => .error ()
  | .one q =>
      match SimpleTW.nextSiblingPosition tl q with
      | .error e => .error e
      | .ok pp => expandFrom tl false fuel pp

/-- `NestedTreeWalker.prev_sibling_position` (lines 184-194). -/
def prevSiblingPosition (tl : NTreeList) (fuel : Nat) (pos : NPos) :
    Except Unit (Option NPos) :=
  match pos with
  | .two q s =>
      match SimpleTW.getNode tl q with
      | .error e => .error e
      | .ok (some (.lst l)) =>
          match listGetPrev l s with
          | some s2 => .ok (some (.two q s2))
          | none =>
              match SimpleTW.prevSiblingPosition q with
              | .error e => .error e
              | .ok pp => expandFrom tl true fuel pp
      | .ok _ => .error ()
  | .one q =>
      match SimpleTW.prevSiblingPosition q with
      | .error e => .error e
      | .ok pp => expandFrom tl true fuel pp

/-- A nested position is bad when its outer component hosts an embedded
list walker with zero elements. -/
def hostsEmptyList (tl : NTreeList) (r : NPos) : Prop :=
  SimpleTW.getNode tl r.outer = .ok (some (.lst []))

/-- The concrete outer tree used by the C5 witness: the root's children are
a plain node, a node hosting an EMPTY embedded list, and a plain node. -/
def tlC5 : NTreeList :=
  [.node (.plain 0)
    (some [.node (.plain 1) none, .node (.lst []) none, .node (.plain 2) none])]

end NestedTW

namespace LWAdapter

/-- One column of the decorated line `ListWalkerAdapter._construct_line`
assembles (src/widget.py lines 1532-1580): vertical continuation bar,
blank filler of a given width, t-connector topped column, l-connector
topped column, horizontal bar of a given width, arrow tip, and the node's
own content. -/
inductive ColItem where
  | bar : ColItem
  | space : Nat → ColItem
  | connT : ColItem
  | connL : ColItem
  | hbar : Nat → ColItem
  | tip : ColItem
  | content : ColItem
deriving DecidableEq

/-- Python attribute lookup of a sibling-navigation method on a
`SimpleTreeWalker` instance: the class defines `next_sibling_position` and
`prev_sibling_position` (src/walkers.py lines 282-286); looking up any
other name raises `AttributeError` (`none` here).  `_construct_spacer` and
`_construct_line` ask for the name `next_sibbling_position` (double `b`,
src/widget.py lines 1537 and 1557). -/
def simpleTreeWalkerSiblingAttr {α : Type} (tl : List (STree α)) :
    String → Option (List Int → Except Unit (Option (List Int)))
  | "next_sibling_position" => some (SimpleTW.nextSiblingPosition tl)
  | "prev_sibling_position" => some (fun p => SimpleTW.prevSiblingPosition p)
  | _ => none

/-- `ListWalkerAdapter._construct_spacer` (src/widget.py lines 1532-1547),
by recursion on the parent chain; the first argument is the recursion
depth, instantiated with the position's length (an upper bound on the
parent-chain length, so the `0` base case is only reached by positions
without a parent). -/
def constructSpacerGo {α : Type} (tl : List (STree α)) (indent : Nat) :
    Nat → List Int → List ColItem → Except Unit (List ColItem)
  | 0, _, acc => .ok acc
  | d + 1, pos, acc =>
      match SimpleTW.parentPosition pos with
      | none => .ok acc
      | some parent =>
          if indent > 0 ∧ (SimpleTW.parentPosition parent).isSome then
            match simpleTreeWalkerSiblingAttr tl "next_sibbling_position" with
            | none => .error ()
            | some f =>
                match f parent with
                | .error e => .error e
                | .ok parentSib =>
                    let barWidth := indent - (if parentSib.isSome then 1 else 0)
                    let acc1 := (if barWidth > 0 then [ColItem.space barWidth]
                                 else []) ++ acc
                    let acc2 := (if parentSib.isSome then [ColItem.bar]
                                 else []) ++ acc1
                    constructSpacerGo tl indent d parent acc2
          else constructSpacerGo tl indent d parent acc

/-- `ListWalkerAdapter._construct_spacer` entry point. -/
def constructSpacer {α : Type} (tl : List (STree α)) (indent : Nat)
    (pos : List Int) (acc : List ColItem) : Except Unit (List ColItem) :=
  constructSpacerGo tl indent pos.length pos acc

/-- `ListWalkerAdapter._construct_line` (src/widget.py lines 1549-1580) for
a non-`None` position over a `SimpleTreeWalker`: widget lookup, spacer
columns, then — when the position has a parent and indent is positive —
the sibling-dependent connector, horizontal bar, arrow tip, and finally
the node's own content. -/
def constructLine {α : Type} (tl : List (STree α)) (indent : Nat)
    (pos : List Int) : Except Unit (List ColItem) :=
  match SimpleTW.getNode tl pos with
  | .error e => .error e
  | .ok _ =>
      match constructSpacer tl indent pos [] with
      | .error e => .error e
      | .ok cols =>
          if indent > 0 ∧ (SimpleTW.parentPosition pos).isSome then
            match simpleTreeWalkerSiblingAttr tl "next_sibbling_position" with
            | none => .error ()
            | some f =>
                match f pos with
                | .error e => .error e
                | .ok sib =>
                    let conn := if sib.isSome then ColItem.connT else ColItem.connL
                    let cols1 := cols ++ [conn]
                    let cols2 := cols1 ++
                      (if indent > 1 then [ColItem.hbar (indent - 1)] else [])
                    let cols3 := cols2 ++ [ColItem.tip]
                    .ok (cols3 ++ [ColItem.content])
          else .ok (cols ++ [ColItem.content])

/-- The tree of the C6 failing input: a root with two children, so the
depth-1 position `(0, 0)` has a parent and a next sibling `(0, 1)`. -/
def tl6 : List (STree Nat) := [.node 0 (some [.node 1 none, .node 2 none])]

end LWAdapter

namespace ListBox

/-- The geometry the viewport engine reads from one body widget at a fixed
`maxcol`: declared row count `rows((maxcol,), ...)`, `selectable()`, the
reported `get_cursor_coords((maxcol,))`, and the geometry of the canvas
`render((maxcol,), focus)` actually produces — its row count and the
cursor it paints when rendered with focus (urwid canvases carry no cursor
when rendered unfocused). -/
structure Widget where
  rows : Nat
  selectable : Bool
  cursor : Option (Nat × Nat)
  canvasRows : Nat
  canvasCursor : Option (Nat × Nat)
deriving DecidableEq

/-- A non-empty linear list-walker body: the focus widget, the widgets
above it (nearest first) and below it (nearest first).  The focus sits at
position 0, `before[k]` at `-(k+1)`, `after[k]` at `k+1`; `get_focus`,
`get_prev` and `get_next` of the walker protocol read off this. -/
structure Body where
  before : List Widget
  focusW : Widget
  after : List Widget
deriving DecidableEq

/-- The widget stored at a linear position, if any. -/
def Body.wid (b : Body) (i : Int) : Option Widget :=
  if i = 0 then some b.focusW
  else if 0 < i then b.after.get? (i - 1).toNat
  else b.before.get? (-i - 1).toNat

/-- `self.body.get_prev(pos)`: the widget-and-position one step above, or
`(None, None)`. -/
def Body.getPrev (b : Body) (i : Int) : Option Widget × Option Int :=
  match b.wid (i - 1) with
  | some w => (some w, some (i - 1))
  | none => (none, none)

/-- `self.body.get_next(pos)`: the widget-and-position one step below, or
`(None, None)`. -/
def Body.getNext (b : Body) (i : Int) : Option Widget × Option Int :=
  match b.wid (i + 1) with
  | some w => (some w, some (i + 1))
  | none => (none, none)

/-- The `ListBox` scroll state (src/widget.py lines 35-41): `offset_rows`
and `inset_fraction = (numerator, denominator)`.  The claims below are
settled for states with no pending focus change (`set_focus_pending` and
`set_focus_valign_pending` both clear). -/
structure LBState where
  offsetRows : Int
  insetFraction : Int × Int
deriving DecidableEq

/-- The `TreeBoxError` conditions raised by the modelled methods. -/
inductive TBErr where
  | invalidInset
  | insetFraction
  | invalidOffset
  | widgetRowsMismatch
  | cursorMismatch
  | tooLong
  | tooShort
deriving DecidableEq

/-- `ListBox.get_focus_offset_inset` (src/widget.py lines 623-639): report
`(offset_rows, inset_rows)`; the inset is only computed (via the stored
fraction and the focus row count, with Python floor division) when
`offset_rows == 0`. -/
def getFocusOffsetInset (b : Body) (s : LBState) : Except TBErr (Int × Int) :=
  let focusRows : Int := b.focusW.rows
  if s.offsetRows = 0 then
    let inum := s.insetFraction.1
    let iden := s.insetFraction.2
    if inum < 0 ∨ iden < 0 ∨ inum ≥ iden then .error .invalidInset
    else
      let insetRows := (focusRows * inum).fdiv iden
      if insetRows ≠ 0 ∧ insetRows ≥ focusRows then .error .insetFraction
      else .ok (s.offsetRows, insetRows)
  else .ok (s.offsetRows, 0)

/-- `ListBox.shift_focus` (src/widget.py lines 474-498): a non-negative
offset below the viewport height is stored directly; a negative one is
stored as an inset fraction of the focus row count; out-of-range values
raise before any state is written. -/
def shiftFocus (b : Body) (s : LBState) (maxrow : Nat) (offsetInset : Int) :
    Except TBErr LBState :=
  if 0 ≤ offsetInset then
    if offsetInset ≥ (maxrow : Int) then .error .invalidOffset
    else .ok { offsetRows := offsetInset, insetFraction := (0, 1) }
  else
    let tgtRows : Int := b.focusW.rows
    if offsetInset + tgtRows ≤ 0 then .error .invalidOffset
    else .ok { offsetRows := 0, insetFraction := (-offsetInset, tgtRows) }

/-- One `(widget, position, rows)` tuple of the visible window. -/
structure Entry where
  w : Widget
  pos : Int
  rows : Nat
deriving DecidableEq

/-- The `middle` tuple of `calculate_visible`. -/
structure Middle where
  offset : Int
  w : Widget
  pos : Int
  rows : Nat
  cursor : Option (Nat × Nat)
deriving DecidableEq

/-- The full result of `calculate_visible` for a non-empty body. -/
structure VisResult where
  middle : Middle
  trimTop : Int
  fillAbove : List Entry
  trimBottom : Int
  fillBelow : List Entry
deriving DecidableEq

/-- Output of the step-2 loop. -/
structure AboveOut where
  rest : List Widget
  offsetRows : Int
  trimTop : Int
  fillAbove : List Entry
  topPos : Int
deriving DecidableEq

/-- The step-2 loop of `calculate_visible` (src/widget.py lines 105-123):
walk the widgets above the focus (`rest`, nearest first; the widget
consumed by an iteration sits at `pos - 1`), collecting the non-zero-row
ones, until `fill_lines` rows are covered, the stream ends (then
`offset_rows` is reduced by the shortfall), or a widget crosses the top
edge (then `trim_top` is set to the overhang). -/
def fillAboveLoop (rest : List Widget) (pos fillLines offsetRows trimTop : Int)
    (acc : List Entry) (topPos : Int) : AboveOut :=
  if fillLines > 0 then
    match rest with
    | [] => ⟨[], offsetRows - fillLines, trimTop, acc, topPos⟩
    | w :: rest2 =>
        if (w.rows : Int) > fillLines then
          ⟨rest2, offsetRows, (w.rows : Int) - fillLines,
           (if w.rows ≠ 0 then acc ++ [⟨w, pos - 1, w.rows⟩] else acc), pos - 1⟩
        else fillAboveLoop rest2 (pos - 1) (fillLines - w.rows) offsetRows trimTop
          (if w.rows ≠ 0 then acc ++ [⟨w, pos - 1, w.rows⟩] else acc) (pos - 1)
  else ⟨rest, offsetRows, trimTop, acc, topPos⟩

/-- Output of the step-3 loop. -/
structure BelowOut where
  rest : List Widget
  trimBottom : Int
  fillLines : Int
  fillBelow : List Entry
deriving DecidableEq

/-- The step-3 loop of `calculate_visible` (src/widget.py lines 129-145):
walk the widgets below the focus, collecting the non-zero-row ones, until
the space below is covered, the stream ends (leaving `fill_lines > 0`), or
a widget crosses the bottom edge (then `trim_bottom` is the overhang and
`fill_lines` goes negative before the break). -/
def fillBelowLoop (rest : List Widget) (pos fillLines trimBottom : Int)
    (acc : List Entry) : BelowOut :=
  if fillLines > 0 then
    match rest with
    | [] => ⟨[], trimBottom, fillLines, acc⟩
    | w :: rest2 =>
        if (w.rows : Int) > fillLines then
          ⟨rest2, (w.rows : Int) - fillLines, fillLines - w.rows,
           (if w.rows ≠ 0 then acc ++ [⟨w, pos + 1, w.rows⟩] else acc)⟩
        else fillBelowLoop rest2 (pos + 1) (fillLines - w.rows) trimBottom
          (if w.rows ≠ 0 then acc ++ [⟨w, pos + 1, w.rows⟩] else acc)
  else ⟨rest, trimBottom, fillLines, acc⟩

/-- Output of the step-4 loop. -/
structure Above4Out where
  rest : List Widget
  offsetRows : Int
  trimTop : Int
  fillAbove : List Entry
deriving DecidableEq

/-- The step-4 loop of `calculate_visible` (src/widget.py lines 159-172):
resume walking above from `top_pos`, appending every widget found (no
zero-row filter here), crediting consumed rows to `offset_rows`, until the
leftover `fill_lines` is covered, the stream ends, or a widget crosses the
top edge. -/
def fillAbove4Loop (rest : List Widget) (pos fillLines offsetRows trimTop : Int)
    (acc : List Entry) : Above4Out :=
  if fillLines > 0 then
    match rest with
    | [] => ⟨[], offsetRows, trimTop, acc⟩
    | w :: rest2 =>
        if (w.rows : Int) > fillLines then
          ⟨rest2, offsetRows + fillLines, (w.rows : Int) - fillLines,
           acc ++ [⟨w, pos - 1, w.rows⟩]⟩
        else fillAbove4Loop rest2 (pos - 1) (fillLines - w.rows)
          (offsetRows + w.rows) trimTop (acc ++ [⟨w, pos - 1, w.rows⟩])
  else ⟨rest, offsetRows, trimTop, acc⟩

/-- The clamp of `calculate_visible` step 1 (src/widget.py lines 81-82):
force at least one line of focus to be visible. -/
def clampOffset (maxrow : Nat) (o0 : Int) : Int :=
  if maxrow ≠ 0 ∧ o0 ≥ (maxrow : Int) then (maxrow : Int) - 1 else o0

/-- The cursor queried by `calculate_visible` (src/widget.py lines 85-88):
only when the viewport has rows, the focus widget is selectable and input
focus is active. -/
def visibleCursor (b : Body) (maxrow : Nat) (focus : Bool) : Option (Nat × Nat) :=
  if maxrow ≠ 0 ∧ b.focusW.selectable ∧ focus then b.focusW.cursor else none

/-- The cursor adjustment of `calculate_visible` (src/widget.py lines
90-99): keep the cursor row inside the viewport by growing the inset (when
the cursor would sit above the top) or shrinking the offset, switching to
an inset when that goes negative (cursor at/below the bottom). -/
def adjustForCursor (maxrow : Nat) (cursor : Option (Nat × Nat)) (o1 i0 : Int) :
    Int × Int :=
  match cursor with
  | none => (o1, i0)
  | some (_, cy) =>
      let ecy : Int := (cy : Int) + o1 - i0
      if ecy < 0 then (o1, (cy : Int))
      else if ecy ≥ (maxrow : Int) then
        let o := (maxrow : Int) - (cy : Int) - 1
        if o < 0 then ((0 : Int), -o) else (o, i0)
      else (o1, i0)

/-- Steps 2-5 of `calculate_visible` (src/widget.py lines 101-177), after
offset `o2` and inset `i2` have been resolved: run the above-focus fill,
derive the bottom trim, run the below-focus fill, redistribute leftover
space from the top (step 4), and assemble the result. -/
def calcVisibleCore (b : Body) (maxrow : Nat) (cursor : Option (Nat × Nat))
    (o2 i2 : Int) : VisResult :=
  let focusRows : Int := b.focusW.rows
  let a := fillAboveLoop b.before 0 o2 o2 i2 [] 0
  let trimBottom0 := max 0 (focusRows + a.offsetRows - i2 - (maxrow : Int))
  let bl := fillBelowLoop b.after 0
    ((maxrow : Int) - focusRows - a.offsetRows + i2) trimBottom0 []
  let fl4 := max 0 bl.fillLines
  let fl5 := if fl4 > 0 ∧ a.trimTop > 0 then
               (if fl4 ≤ a.trimTop then 0 else fl4 - a.trimTop) else fl4
  let tt5 := if fl4 > 0 ∧ a.trimTop > 0 then
               (if fl4 ≤ a.trimTop then a.trimTop - fl4 else 0) else a.trimTop
  let or5 := if fl4 > 0 ∧ a.trimTop > 0 then
               (if fl4 ≤ a.trimTop then a.offsetRows + fl4
                else a.offsetRows + a.trimTop) else a.offsetRows
  let a4 := fillAbove4Loop a.rest a.topPos fl5 or5 tt5 a.fillAbove
  ⟨⟨a4.offsetRows - i2, b.focusW, 0, b.focusW.rows, cursor⟩,
   a4.trimTop, a4.fillAbove, bl.trimBottom, bl.fillBelow⟩

/-- `ListBox.calculate_visible` (src/widget.py lines 53-177) for a
non-empty body with no pending focus change. -/
def calcVisible (b : Body) (s : LBState) (maxrow : Nat) (focus : Bool) :
    Except TBErr VisResult :=
  match getFocusOffsetInset b s with
  | .error e => .error e
  | .ok (offsetRows0, insetRows0) =>
      let offsetRows1 := clampOffset maxrow offsetRows0
      let cursor := visibleCursor b maxrow focus
      let oi := adjustForCursor maxrow cursor offsetRows1 insetRows0
      .ok (calcVisibleCore b maxrow cursor oi.1 oi.2)

/-- The sum of the declared row counts of the entries of a visible-window
section. -/
def sumRowsE (l : List Entry) : Int := (l.map (fun en => (en.rows : Int))).sum

/-- The position of the topmost returned node of the visible window: last
entry of the (bottom-up) above-focus list, or the focus itself. -/
def topmostPos (v : VisResult) : Int :=
  ((v.fillAbove.getLast?).map Entry.pos).getD v.middle.pos

/-- The position of the bottommost returned node of the visible window:
last entry of the (top-down) below-focus list, or the focus itself. -/
def bottommostPos (v : VisResult) : Int :=
  ((v.fillBelow.getLast?).map Entry.pos).getD v.middle.pos

/-- The cursor of the canvas a widget renders under the given focus flag:
urwid canvases only carry a cursor when rendered with focus. -/
def canvasCursor (w : Widget) (focus : Bool) : Option (Nat × Nat) :=
  if focus then w.canvasCursor else none

/-- The per-widget render-and-check loops of `ListBox.render`
(src/widget.py lines 197-202 and 215-220): render each widget, raise on
the first one whose canvas height differs from its declared rows, and
accumulate the declared rows. -/
def renderSection : List Entry → Except TBErr Int
  | [] => .ok 0
  | en :: rest =>
      if en.w.canvasRows ≠ en.rows then .error .widgetRowsMismatch
      else
        match renderSection rest with
        | .error e => .error e
        | .ok r => .ok ((en.rows : Int) + r)

/-- The trim-and-final-checks tail of `ListBox.render` (src/widget.py
lines 222-242): apply the trims to the accumulated rows `rows0`, fail when
the composed canvas is taller than the viewport, or shorter while a bottom
trim was consumed or content remains below the bottommost widget;
otherwise pad to (or return) the viewport height. -/
def renderBottom (b : Body) (v : VisResult) (maxrow : Nat) (rows0 : Int) :
    Except TBErr Int :=
  let rows1 := rows0 - v.trimTop - v.trimBottom
  if rows1 > (maxrow : Int) then .error .tooLong
  else if rows1 < (maxrow : Int) then
    if v.trimBottom ≠ 0 ∨ b.getNext (bottommostPos v) ≠ (none, none) then
      .error .tooShort
    else .ok maxrow
  else .ok rows1

/-- The focus checks and below-focus loop of `ListBox.render` (src/widget.py
lines 204-220): row-check the focus canvas, compare the reported cursor
with the rendered one, then render-and-check the widgets below. -/
def renderFocusChecks (b : Body) (v : VisResult) (maxrow : Nat) (focus : Bool)
    (rowsAbove : Int) : Except TBErr Int :=
  if b.focusW.canvasRows ≠ v.middle.rows then .error .widgetRowsMismatch
  else if v.middle.cursor ≠ canvasCursor b.focusW focus then .error .cursorMismatch
  else
    match renderSection v.fillBelow with
    | .error e => .error e
    | .ok rowsBelow =>
        renderBottom b v maxrow (rowsAbove + (v.middle.rows : Int) + rowsBelow)

/-- `ListBox.render` (src/widget.py lines 179-242) for a non-empty body:
compute the visible window, render-and-check the widgets above (in
top-down order), then the focus and the widgets below, then trim and run
the final height checks. -/
def render (b : Body) (s : LBState) (maxrow : Nat) (focus : Bool) :
    Except TBErr Int :=
  match calcVisible b s maxrow focus with
  | .error e => .error e
  | .ok v =>
      match renderSection v.fillAbove.reverse with
      | .error e => .error e
      | .ok rowsAbove => renderFocusChecks b v maxrow focus rowsAbove

def wRows0 : Widget := ⟨0, false, none, 0, none⟩

def bZeroFocus : Body := ⟨[], wRows0, []⟩

def wAbove4 : Widget := ⟨4, false, none, 4, none⟩

def bC10 : Body := ⟨[wAbove4], wRows0, []⟩

def wF1 : Widget := ⟨1, false, none, 1, none⟩

def bC1a : Body := ⟨[], wF1, [wRows0]⟩

def w3r : Widget := ⟨3, false, none, 3, none⟩

def w9r : Widget := ⟨9, false, none, 9, none⟩

def wXr : Widget := ⟨1, false, none, 1, none⟩

def bC1b : Body := ⟨[], wF1, [w3r, w9r, wXr]⟩

/-- The remaining above-focus stream `rest` is exactly what the body holds
strictly above position `p` (nearest first). -/
def AboveCoh (b : Body) (rest : List Widget) (p : Int) : Prop :=
  p ≤ 0 ∧ rest = b.before.drop (-p).toNat

/-- The remaining below-focus stream `rest` is exactly what the body holds
strictly below position `p` (nearest first). -/
def BelowCoh (b : Body) (rest : List Widget) (p : Int) : Prop :=
  0 ≤ p ∧ rest = b.after.drop p.toNat

/-- The position of the last entry of a section, with a default for the
empty section. -/
def lastPosD (l : List Entry) (dflt : Int) : Int :=
  ((l.getLast?).map Entry.pos).getD dflt

def wX1 : Widget := ⟨1, false, none, 1, none⟩

def bC1w : Body := ⟨[], wF1, [wX1]⟩

def wA2 : Widget := ⟨2, false, none, 2, none⟩

def bC10w : Body := ⟨[wA2], wF1, []⟩

def wF2 : Widget := ⟨2, true, none, 2, none⟩

def bC8 : Body := ⟨[w3r], wF2, [wXr]⟩

def wC2 : Widget := ⟨2, false, none, 3, none⟩

def bC2 : Body := ⟨[], wC2, []⟩

end ListBox

end UrwidTrees

namespace UrwidTrees

namespace SimpleTW

theorem confirmPos_ok_some {α : Type} {tl : List (STree α)} {p q : List Int}
    (h : confirmPos tl p = .ok (some q)) : q = p := by
  unfold confirmPos at h
  cases hn : getNode tl p with
  | error e => rw [hn] at h; simp [Bind.bind, Except.bind] at h
  | ok n =>
      rw [hn] at h
      simp only [Bind.bind, Except.bind, pure, Except.pure, Except.ok.injEq] at h
      by_cases hs : n.isSome <;> simp [hs] at h
      exact h.symm

theorem confirmPos_of_valid {α : Type} {tl : List (STree α)} {p : List Int}
    (h : validPos tl p) : confirmPos tl p = .ok (some p) := by
  obtain ⟨-, w, hw⟩ := h
  unfold confirmPos
  rw [hw]
  rfl

theorem getNode_nil {α : Type} (tl : List (STree α)) : getNode tl [] = .ok none := rfl

/-- Claim C7: for the fixed in-memory tree (`SimpleTreeWalker`), for every
valid position `p`, if `next_sibling_position p` is not absence then
`prev_sibling_position` of it returns `p`, and symmetrically with the
roles of `next` and `prev` exchanged. -/
theorem sibling_symmetry {α : Type} (tl : List (STree α)) (p : List Int)
    (hv : validPos tl p) :
    (∀ q, nextSiblingPosition tl p = .ok (some q) →
        prevSiblingPosition q = .ok (some p)) ∧
    (∀ q, prevSiblingPosition p = .ok (some q) →
        nextSiblingPosition tl q = .ok (some p)) := by
  have hne : p ≠ [] := by
    intro hnil
    obtain ⟨-, w, hw⟩ := hv
    rw [hnil, getNode_nil] at hw
    exact absurd hw (by simp)
  obtain ⟨last, hlast⟩ : ∃ last, p.getLast? = some last := by
    cases hgl : p.getLast? with
    | none => exact absurd (List.getLast?_eq_none_iff.mp hgl) hne
    | some a => exact ⟨a, rfl⟩
  have hp : p.dropLast ++ [last] = p :=
    List.dropLast_append_getLast? last (by rw [hlast]; rfl)
  have h0 : (0 : Int) ≤ last := by
    refine hv.1 last ?_
    rw [← hp]; simp
  constructor
  · intro q h
    unfold nextSiblingPosition at h
    rw [hlast] at h
    have hq := confirmPos_ok_some h
    subst hq
    unfold prevSiblingPosition
    rw [show p.dropLast ++ [last + 1] = (p.dropLast ++ [last + 1]) from rfl,
      List.getLast?_concat]
    have hpos : last + 1 > 0 := by omega
    simp only [hpos, if_pos, List.dropLast_concat]
    rw [show last + 1 - 1 = last by omega, hp]
  · intro q h
    unfold prevSiblingPosition at h
    rw [hlast] at h
    by_cases hpos : last > 0
    · simp only [hpos, if_pos, Except.ok.injEq, Option.some.injEq] at h
      subst h
      unfold nextSiblingPosition
      rw [List.getLast?_concat, List.dropLast_concat]
      show confirmPos tl (p.dropLast ++ [last - 1 + 1]) = .ok (some p)
      rw [show last - 1 + 1 = last by omega, hp]
      exact confirmPos_of_valid hv
    · simp [hpos] at h

/-- Witness for C7: in the two-node tree `tl7`, position `[0]` is valid,
its next sibling is `[1]`, and the theorem yields `prev_sibling [1] = [0]`. -/
theorem sibling_symmetry_witness :
    prevSiblingPosition [(1 : Int)] = .ok (some [0]) :=
  (sibling_symmetry tl7 [0] ⟨by decide, 0, rfl⟩).1 [1] rfl

/-- Claim C3 (code bug evidence): on the tree `[(widget, [])]` whose root has
an EMPTY children list, `last_child_position` of the root returns the
unconfirmed position `(0, -1)` with a negative child index instead of
absence, and that position does not resolve to any widget; by contrast
`first_child_position` correctly returns absence after its lookup fails. -/
theorem lastChild_empty_children_negative_index :
    lastChildPosition tl3 [0] = .ok (some [0, -1]) ∧
    getNode tl3 [0, -1] = .ok none ∧
    firstChildPosition tl3 [0] = .ok none :=
  ⟨rfl, rfl, rfl⟩

end SimpleTW

namespace NestedTW

theorem expandFrom_never_empty (tl : NTreeList) (reverse : Bool) :
    ∀ (fuel : Nat) (pp : Option (List Int)) (r : NPos),
      expandFrom tl reverse fuel pp = .ok (some r) → ¬ hostsEmptyList tl r := by
  intro fuel
  induction fuel with
  | zero => intro pp r h; exact absurd h (by simp [expandFrom])
  | succ n ih =>
      intro pp r h
      match pp with
      | none => simp [expandFrom] at h
      | some q =>
          rw [expandFrom] at h
          split at h
          · exact absurd h (by simp)
          · rename_i l hn
            split at h
            · rename_i s hf
              cases h
              intro hbad
              rw [hostsEmptyList, NPos.outer, hn] at hbad
              simp only [Except.ok.injEq, Option.some.injEq, NPayload.lst.injEq] at hbad
              subst hbad
              exact absurd hf (by simp [listFirstPosition])
            · split at h
              · exact absurd h (by simp)
              · rename_i succ hs
                exact ih succ r h
          · rename_i primary hn hnl
            cases h
            intro hbad
            rw [hostsEmptyList, NPos.outer, hnl] at hbad
            simp only [Except.ok.injEq] at hbad
            exact hn [] hbad

/-- Claim C5: navigation through the nesting adapter never returns a
position whose outer component hosts an empty embedded list: every
successful result of `first_child` / `last_child` / `next_sibling` /
`prev_sibling` avoids such positions, and `_expand_from` on an outer
position hosting an empty list skips straight to that position's outer
sibling chain. -/
theorem nested_navigation_never_surfaces_empty_list (tl : NTreeList)
    (fuel : Nat) (p r : NPos) :
    (firstChildPosition tl fuel p = .ok (some r) → ¬ hostsEmptyList tl r) ∧
    (lastChildPosition tl fuel p = .ok (some r) → ¬ hostsEmptyList tl r) ∧
    (nextSiblingPosition tl fuel p = .ok (some r) → ¬ hostsEmptyList tl r) ∧
    (prevSiblingPosition tl fuel p = .ok (some r) → ¬ hostsEmptyList tl r) ∧
    (∀ q, SimpleTW.getNode tl q = .ok (some (.lst [])) →
        expandFrom tl false (fuel + 1) (some q) =
          (match SimpleTW.nextSiblingPosition tl q with
           | .error e => .error e
           | .ok succ => expandFrom tl false fuel succ)) := by
  refine ⟨?_, ?_, ?_, ?_, ?_⟩
  · intro h
    match p with
    | .two _ _ => exact absurd h (by simp [firstChildPosition])
    | .one q =>
        rw [firstChildPosition] at h
        split at h
        · exact absurd h (by simp)
        · rename_i pp hc
          exact expandFrom_never_empty tl false fuel pp r h
  · intro h
    match p with
    | .two _ _ => exact absurd h (by simp [lastChildPosition])
    | .one q =>
        rw [lastChildPosition] at h
        split at h
        · exact absurd h (by simp)
        · rename_i pp hc
          exact expandFrom_never_empty tl true fuel pp r h
  · intro h
    match p with
    | .one q =>
        rw [nextSiblingPosition] at h
        split at h
        · exact absurd h (by simp)
        · rename_i pp hc
          exact expandFrom_never_empty tl false fuel pp r h
    | .two q s =>
        rw [nextSiblingPosition] at h
        split at h
        · exact absurd h (by simp)
        · rename_i l hn
          split at h
          · rename_i s2 hg
            cases h
            intro hbad
            rw [hostsEmptyList, NPos.outer, hn] at hbad
            simp only [Except.ok.injEq, Option.some.injEq, NPayload.lst.injEq] at hbad
            subst hbad
            exact absurd hg (by simp [listGetNext])
          · split at h
            · exact absurd h (by simp)
            · rename_i pp hc
              exact expandFrom_never_empty tl false fuel pp r h
        · exact absurd h (by simp)
  · intro h
    match p with
    | .one q =>
        rw [prevSiblingPosition] at h
        split at h
        · exact absurd h (by simp)
        · rename_i pp hc
          exact expandFrom_never_empty tl true fuel pp r h
    | .two q s =>
        rw [prevSiblingPosition] at h
        split at h
        · exact absurd h (by simp)
        · rename_i l hn
          split at h
          · rename_i s2 hg
            cases h
            intro hbad
            rw [hostsEmptyList, NPos.outer, hn] at hbad
            simp only [Except.ok.injEq, Option.some.injEq, NPayload.lst.injEq] at hbad
            subst hbad
            exact absurd hg (by simp [listGetPrev])
          · split at h
            · exact absurd h (by simp)
            · rename_i pp hc
              exact expandFrom_never_empty tl true fuel pp r h
        · exact absurd h (by simp)
  · intro q hq
    rw [expandFrom, hq]
    simp [listFirstPosition]

/-- Witness for C5: stepping right from `((0, 0),)` in `tlC5` skips the
empty embedded list at `(0, 1)` and lands on `((0, 2),)`, which does not
host an empty list. -/
theorem nested_navigation_never_surfaces_empty_list_witness :
    ¬ hostsEmptyList tlC5 (NPos.one [0, 2]) :=
  (nested_navigation_never_surfaces_empty_list tlC5 3 (NPos.one [0, 0])
    (NPos.one [0, 2])).2.2.1 rfl

/-- Claim C4 (counterexample): `parent_position` applied to the 2-tuple
`((0, 0), 0)` returns `((0,),)` — the OUTER PARENT of `(0, 0)` wrapped as a
1-tuple — not the claimed `((0, 0),)`. -/
theorem nested_parent_two_tuple_counterexample :
    parentPosition (NPos.two [0, 0] 0) = some (NPos.one [0]) ∧
    parentPosition (NPos.two [0, 0] 0) ≠ some (NPos.one [0, 0]) :=
  ⟨rfl, by decide⟩

/-- Claim C4 (amended): `parent_position`, on BOTH 1-tuple and 2-tuple
positions, delegates to the wrapped outer navigator's `parent_position` on
the first component and wraps the result as a 1-tuple (absence when the
outer parent is absent). -/
theorem nested_parent_delegates_on_first_component (pos : NPos) :
    parentPosition pos = (SimpleTW.parentPosition pos.outer).map NPos.one := by
  cases pos <;> rfl

end NestedTW

namespace LWAdapter

/-- Claim C6 (code bug evidence): constructing the decorated line for
position `(0, 0)` — which has a parent and a later sibling — with the
default indent 2 FAULTS instead of ending the prefix with the t-connector
glyph: `_construct_line` accesses the attribute `next_sibbling_position`
(misspelled, double `b`) on its walker, and no walker class defines that
name (they define `next_sibling_position`), so the lookup raises
`AttributeError`. -/
theorem constructLine_faults_on_missing_attribute :
    constructLine tl6 2 [0, 0] = .error () ∧
    simpleTreeWalkerSiblingAttr tl6 "next_sibbling_position" = none ∧
    (simpleTreeWalkerSiblingAttr tl6 "next_sibling_position").isSome = true :=
  ⟨rfl, rfl, rfl⟩

end LWAdapter

namespace ListBox

theorem fillAboveLoop_nil (pos fl or tt : Int) (acc : List Entry) (tp : Int)
    (hfl : fl > 0) :
    fillAboveLoop [] pos fl or tt acc tp = ⟨[], or - fl, tt, acc, tp⟩ := by
  rw [fillAboveLoop.eq_def, if_pos hfl]

theorem fillAboveLoop_cons (w : Widget) (rest2 : List Widget)
    (pos fl or tt : Int) (acc : List Entry) (tp : Int) (hfl : fl > 0) :
    fillAboveLoop (w :: rest2) pos fl or tt acc tp =
      if (w.rows : Int) > fl then
        ⟨rest2, or, (w.rows : Int) - fl,
         (if w.rows ≠ 0 then acc ++ [⟨w, pos - 1, w.rows⟩] else acc), pos - 1⟩
      else fillAboveLoop rest2 (pos - 1) (fl - w.rows) or tt
        (if w.rows ≠ 0 then acc ++ [⟨w, pos - 1, w.rows⟩] else acc) (pos - 1) := by
  rw [fillAboveLoop.eq_def, if_pos hfl]

theorem fillAboveLoop_stop (rest : List Widget) (pos fl or tt : Int)
    (acc : List Entry) (tp : Int) (hfl : ¬ fl > 0) :
    fillAboveLoop rest pos fl or tt acc tp = ⟨rest, or, tt, acc, tp⟩ := by
  rw [fillAboveLoop.eq_def, if_neg hfl]

theorem fillBelowLoop_nil (pos fl tb : Int) (acc : List Entry) (hfl : fl > 0) :
    fillBelowLoop [] pos fl tb acc = ⟨[], tb, fl, acc⟩ := by
  rw [fillBelowLoop.eq_def, if_pos hfl]

theorem fillBelowLoop_cons (w : Widget) (rest2 : List Widget) (pos fl tb : Int)
    (acc : List Entry) (hfl : fl > 0) :
    fillBelowLoop (w :: rest2) pos fl tb acc =
      if (w.rows : Int) > fl then
        ⟨rest2, (w.rows : Int) - fl, fl - w.rows,
         (if w.rows ≠ 0 then acc ++ [⟨w, pos + 1, w.rows⟩] else acc)⟩
      else fillBelowLoop rest2 (pos + 1) (fl - w.rows) tb
        (if w.rows ≠ 0 then acc ++ [⟨w, pos + 1, w.rows⟩] else acc) := by
  rw [fillBelowLoop.eq_def, if_pos hfl]

theorem fillBelowLoop_stop (rest : List Widget) (pos fl tb : Int)
    (acc : List Entry) (hfl : ¬ fl > 0) :
    fillBelowLoop rest pos fl tb acc = ⟨rest, tb, fl, acc⟩ := by
  rw [fillBelowLoop.eq_def, if_neg hfl]

theorem fillAbove4Loop_nil (pos fl or tt : Int) (acc : List Entry)
    (hfl : fl > 0) :
    fillAbove4Loop [] pos fl or tt acc = ⟨[], or, tt, acc⟩ := by
  rw [fillAbove4Loop.eq_def, if_pos hfl]

theorem fillAbove4Loop_cons (w : Widget) (rest2 : List Widget)
    (pos fl or tt : Int) (acc : List Entry) (hfl : fl > 0) :
    fillAbove4Loop (w :: rest2) pos fl or tt acc =
      if (w.rows : Int) > fl then
        ⟨rest2, or + fl, (w.rows : Int) - fl, acc ++ [⟨w, pos - 1, w.rows⟩]⟩
      else fillAbove4Loop rest2 (pos - 1) (fl - w.rows) (or + w.rows) tt
        (acc ++ [⟨w, pos - 1, w.rows⟩]) := by
  rw [fillAbove4Loop.eq_def, if_pos hfl]

theorem fillAbove4Loop_stop (rest : List Widget) (pos fl or tt : Int)
    (acc : List Entry) (hfl : ¬ fl > 0) :
    fillAbove4Loop rest pos fl or tt acc = ⟨rest, or, tt, acc⟩ := by
  rw [fillAbove4Loop.eq_def, if_neg hfl]

/-- Claim C9 (amended): `shift_focus` raises the invalid-argument
`TreeBoxError` exactly when the requested `offset_inset` is at least the
viewport height, or it is NEGATIVE and `offset_inset` plus the focus row
count is at most 0; the raise happens before any assignment, so an erroring
call produces no new state. -/
theorem shiftFocus_error_iff (b : Body) (s : LBState) (maxrow : Nat) (oi : Int) :
    (∃ e, shiftFocus b s maxrow oi = .error e) ↔
      (oi ≥ (maxrow : Int) ∨ (oi < 0 ∧ oi + (b.focusW.rows : Int) ≤ 0)) := by
  unfold shiftFocus
  by_cases h0 : 0 ≤ oi
  · by_cases h1 : oi ≥ (maxrow : Int)
    · simp only [h0, if_true, h1, if_pos]
      simp [h1]
    · simp only [h0, if_true, if_neg h1]
      simp only [show ¬oi < 0 by omega, false_and, or_false]
      simp [h1]
  · by_cases h2 : oi + (b.focusW.rows : Int) ≤ 0
    · simp only [if_neg h0, if_pos h2]
      simp only [show oi < 0 by omega, true_and]
      simp [h2]
    · simp only [if_neg h0, if_neg h2]
      constructor
      · rintro ⟨e, he⟩
        exact absurd he (by simp)
      · intro hc
        rcases hc with hc | hc
        · omega
        · omega

/-- Claim C9 (counterexample): with a 0-row focus widget, requested offset
0 and viewport height 5, the claimed error condition
`offset_inset + focus_rows <= 0` holds, yet `shift_focus` succeeds and
stores the offset — the source tests that condition only when
`offset_inset < 0`. -/
theorem shiftFocus_zero_row_focus_counterexample :
    (0 : Int) + (bZeroFocus.focusW.rows : Int) ≤ 0 ∧
    shiftFocus bZeroFocus ⟨0, (0, 1)⟩ 5 0 = .ok ⟨0, (0, 1)⟩ :=
  ⟨by decide, rfl⟩

/-- Claim C10 (counterexample): for the body `[4-row widget, 0-row focus]`
with viewport height 4 and stored `offset_rows = 5 >= maxrow`,
`calculate_visible` succeeds but the reported focus row offset is
4 > maxrow - 1: the clamp alone does not bound the final offset, because
step 4 refills from the top past the zero-row focus. -/
theorem calcVisible_offset_counterexample :
    calcVisible bC10 ⟨5, (0, 1)⟩ 4 false =
      .ok ⟨⟨4, wRows0, 0, 0, none⟩, 0, [⟨wAbove4, -1, 4⟩], 0, []⟩ ∧
    ¬ (4 : Int) ≤ (4 : Int) - 1 :=
  ⟨rfl, by decide⟩

/-- Claim C1 (counterexample): two successful `calculate_visible` runs on
non-empty bodies with viewport height 3 whose returned row accounting
misses the viewport height although the top and bottom structural edges
are NOT both inside the viewport: (i) a 0-row widget below the focus is
consumed by the walk but filtered out of the returned window, so the
bottommost returned node still has a successor; (ii) a negative stored
`offset_rows` (which the engine itself never produces) shrinks the
window. -/
theorem calcVisible_accounting_counterexample :
    (calcVisible bC1a ⟨0, (0, 1)⟩ 3 false =
        .ok ⟨⟨0, wF1, 0, 1, none⟩, 0, [], 0, []⟩ ∧
      (0 : Int) + (1 : Int) + 0 - 0 - 0 ≠ (3 : Int) ∧
      bC1a.getNext 0 ≠ (none, none)) ∧
    (calcVisible bC1b ⟨-2, (0, 1)⟩ 3 false =
        .ok ⟨⟨-2, wF1, 0, 1, none⟩, 0, [],
             8, [⟨w3r, 1, 3⟩, ⟨w9r, 2, 9⟩]⟩ ∧
      (0 : Int) + (1 : Int) + (3 + 9) - 0 - 8 ≠ (3 : Int) ∧
      bC1b.getNext 2 ≠ (none, none)) :=
  ⟨⟨rfl, by decide, by decide⟩, ⟨rfl, by decide, by decide⟩⟩

theorem renderSection_ok (l : List Entry)
    (h : ∀ en ∈ l, en.w.canvasRows = en.rows) :
    renderSection l = .ok (sumRowsE l) := by
  induction l with
  | nil => rfl
  | cons en rest ih =>
      unfold renderSection
      rw [if_neg (by simpa using h en (by simp))]
      rw [ih (fun x hx => h x (by simp [hx]))]
      simp [sumRowsE]

theorem renderSection_error (l : List Entry)
    (h : ∃ en ∈ l, en.w.canvasRows ≠ en.rows) :
    ∃ e, renderSection l = .error e := by
  induction l with
  | nil => simp at h
  | cons en rest ih =>
      unfold renderSection
      by_cases hen : en.w.canvasRows ≠ en.rows
      · rw [if_pos hen]
        exact ⟨_, rfl⟩
      · rw [if_neg hen]
        have hrest : ∃ x ∈ rest, x.w.canvasRows ≠ x.rows := by
          rcases h with ⟨x, hx, hne⟩
          rcases List.mem_cons.mp hx with hx0 | hx1
          · exact absurd (hx0 ▸ hne) hen
          · exact ⟨x, hx1, hne⟩
        obtain ⟨e, he⟩ := ih hrest
        rw [he]
        exact ⟨e, rfl⟩

theorem sumRowsE_reverse (l : List Entry) : sumRowsE l.reverse = sumRowsE l := by
  simp [sumRowsE, List.sum_reverse]

/-- Claim C2: for every non-empty body, `render` raises a `TreeBoxError`
— and returns no frame — whenever some returned widget's declared row
count differs from the height of the canvas it renders (above the focus,
the focus itself, or below it), or the focus's reported cursor differs
from the cursor its canvas renders, or the composed (trimmed) content
height exceeds the viewport height. -/
theorem render_fails_on_layout_inconsistency (b : Body) (s : LBState)
    (maxrow : Nat) (focus : Bool) (v : VisResult)
    (hcv : calcVisible b s maxrow focus = .ok v)
    (hbad : (∃ en ∈ v.fillAbove, en.w.canvasRows ≠ en.rows) ∨
            b.focusW.canvasRows ≠ v.middle.rows ∨
            v.middle.cursor ≠ canvasCursor b.focusW focus ∨
            (∃ en ∈ v.fillBelow, en.w.canvasRows ≠ en.rows) ∨
            sumRowsE v.fillAbove + (v.middle.rows : Int) + sumRowsE v.fillBelow
              - v.trimTop - v.trimBottom > (maxrow : Int)) :
    ∃ e, render b s maxrow focus = .error e := by
  unfold render
  rw [hcv]
  show ∃ e, (match renderSection v.fillAbove.reverse with
    | Except.error e2 => (Except.error e2 : Except TBErr Int)
    | Except.ok rowsAbove => renderFocusChecks b v maxrow focus rowsAbove)
    = Except.error e
  by_cases hA : ∃ en ∈ v.fillAbove, en.w.canvasRows ≠ en.rows
  · obtain ⟨e, he⟩ := renderSection_error v.fillAbove.reverse
      (by rcases hA with ⟨en, hm, hne⟩; exact ⟨en, by simpa using hm, hne⟩)
    rw [he]
    exact ⟨e, rfl⟩
  · push_neg at hA
    rw [renderSection_ok v.fillAbove.reverse
      (fun en hm => hA en (by simpa using hm))]
    show ∃ e, renderFocusChecks b v maxrow focus (sumRowsE v.fillAbove.reverse)
      = .error e
    unfold renderFocusChecks
    by_cases hF : b.focusW.canvasRows ≠ v.middle.rows
    · rw [if_pos hF]
      exact ⟨_, rfl⟩
    · rw [if_neg hF]
      by_cases hC : v.middle.cursor ≠ canvasCursor b.focusW focus
      · rw [if_pos hC]
        exact ⟨_, rfl⟩
      · rw [if_neg hC]
        by_cases hB : ∃ en ∈ v.fillBelow, en.w.canvasRows ≠ en.rows
        · obtain ⟨e, he⟩ := renderSection_error v.fillBelow hB
          rw [he]
          exact ⟨e, rfl⟩
        · push_neg at hB
          rw [renderSection_ok v.fillBelow hB]
          show ∃ e, renderBottom b v maxrow (sumRowsE v.fillAbove.reverse
            + (v.middle.rows : Int) + sumRowsE v.fillBelow) = .error e
          have hH : sumRowsE v.fillAbove + (v.middle.rows : Int)
              + sumRowsE v.fillBelow - v.trimTop - v.trimBottom
              > (maxrow : Int) := by
            rcases hbad with h | h | h | h | h
            · exact absurd h (by push_neg; exact hA)
            · exact absurd h hF
            · exact absurd h hC
            · exact absurd h (by push_neg; exact hB)
            · exact h
          unfold renderBottom
          rw [sumRowsE_reverse, if_pos (by omega)]
          exact ⟨_, rfl⟩

theorem sumRowsE_nil : sumRowsE [] = 0 := rfl

theorem sumRowsE_append_single (acc : List Entry) (e : Entry) :
    sumRowsE (acc ++ [e]) = sumRowsE acc + (e.rows : Int) := by
  simp [sumRowsE]

theorem sumRowsE_nonneg (l : List Entry) : 0 ≤ sumRowsE l := by
  unfold sumRowsE
  refine List.sum_nonneg ?_
  intro x hx
  simp only [List.mem_map] at hx
  obtain ⟨en, -, hxe⟩ := hx
  omega

theorem sumRowsE_condAppend (acc : List Entry) (w : Widget) (p : Int) :
    sumRowsE (if w.rows ≠ 0 then acc ++ [⟨w, p, w.rows⟩] else acc)
      = sumRowsE acc + (w.rows : Int) := by
  by_cases hz : w.rows ≠ 0
  · rw [if_pos hz, sumRowsE_append_single]
  · push_neg at hz
    rw [if_neg (by simp [hz])]
    simp [hz]

/-- Accounting invariant of the step-2 loop: provided `trim_top` is 0
whenever there are rows left to fill (true at the call site because a
positive offset forces a zero inset), the collected rows minus the final
top trim equal the entry accumulator value plus the offset change plus the
requested fill; the offset never grows; the trim stays non-negative. -/
theorem fillAboveLoop_spec (rest : List Widget) :
    ∀ (pos fl or tt : Int) (acc : List Entry) (tp : Int), (0 < fl → tt = 0) →
    sumRowsE (fillAboveLoop rest pos fl or tt acc tp).fillAbove
        - (fillAboveLoop rest pos fl or tt acc tp).trimTop
      = sumRowsE acc - tt
        + ((fillAboveLoop rest pos fl or tt acc tp).offsetRows - or) + max fl 0
    ∧ (fillAboveLoop rest pos fl or tt acc tp).offsetRows ≤ or
    ∧ (0 ≤ tt → 0 ≤ (fillAboveLoop rest pos fl or tt acc tp).trimTop) := by
  induction rest with
  | nil =>
      intro pos fl or tt acc tp h0
      by_cases hfl : fl > 0
      · rw [fillAboveLoop_nil pos fl or tt acc tp hfl]
        refine ⟨by dsimp only; omega, by dsimp only; omega, by dsimp only; omega⟩
      · rw [fillAboveLoop_stop [] pos fl or tt acc tp hfl]
        refine ⟨by dsimp only; omega, by dsimp only; omega, by dsimp only; omega⟩
  | cons w rest2 ih =>
      intro pos fl or tt acc tp h0
      by_cases hfl : fl > 0
      · rw [fillAboveLoop_cons w rest2 pos fl or tt acc tp hfl]
        have htt : tt = 0 := h0 hfl
        subst htt
        by_cases hcross : (w.rows : Int) > fl
        · rw [if_pos hcross]
          refine ⟨?_, by dsimp only; omega, by dsimp only; omega⟩
          dsimp only
          rw [sumRowsE_condAppend]
          omega
        · rw [if_neg hcross]
          obtain ⟨iha, ihb, ihc⟩ := ih (pos - 1) (fl - w.rows) or 0
            (if w.rows ≠ 0 then acc ++ [⟨w, pos - 1, w.rows⟩] else acc)
            (pos - 1) (fun _ => rfl)
          refine ⟨?_, ihb, ihc⟩
          rw [iha, sumRowsE_condAppend]
          omega
      · rw [fillAboveLoop_stop (w :: rest2) pos fl or tt acc tp hfl]
        refine ⟨by dsimp only; omega, by dsimp only; omega, by dsimp only; omega⟩

/-- Accounting invariant of the step-3 loop: the collected rows below
relate the consumed fill to the final leftover and bottom trim; the trim
is untouched unless a widget crossed the bottom edge (leftover negative);
a positive leftover means the stream was exhausted. -/
theorem fillBelowLoop_spec (rest : List Widget) :
    ∀ (pos fl tb : Int) (acc : List Entry), (0 < fl → tb = 0) →
    sumRowsE (fillBelowLoop rest pos fl tb acc).fillBelow - sumRowsE acc
      = max fl 0 - max (fillBelowLoop rest pos fl tb acc).fillLines 0
        + ((fillBelowLoop rest pos fl tb acc).trimBottom - tb)
    ∧ (0 ≤ (fillBelowLoop rest pos fl tb acc).fillLines →
        (fillBelowLoop rest pos fl tb acc).trimBottom = tb)
    ∧ (0 < (fillBelowLoop rest pos fl tb acc).fillLines →
        (fillBelowLoop rest pos fl tb acc).rest = [])
    ∧ (fillBelowLoop rest pos fl tb acc).fillLines ≤ max fl 0 := by
  induction rest with
  | nil =>
      intro pos fl tb acc h0
      by_cases hfl : fl > 0
      · rw [fillBelowLoop_nil pos fl tb acc hfl]
        refine ⟨by dsimp only; omega, by dsimp only; omega,
          by dsimp only; intro h; rfl, by dsimp only; omega⟩
      · rw [fillBelowLoop_stop [] pos fl tb acc hfl]
        refine ⟨by dsimp only; omega, by dsimp only; omega,
          by dsimp only; intro h; rfl, by dsimp only; omega⟩
  | cons w rest2 ih =>
      intro pos fl tb acc h0
      by_cases hfl : fl > 0
      · rw [fillBelowLoop_cons w rest2 pos fl tb acc hfl]
        have htb : tb = 0 := h0 hfl
        subst htb
        by_cases hcross : (w.rows : Int) > fl
        · rw [if_pos hcross]
          refine ⟨?_, by dsimp only; omega, by dsimp only; omega,
            by dsimp only; omega⟩
          dsimp only
          rw [sumRowsE_condAppend]
          omega
        · rw [if_neg hcross]
          obtain ⟨iha, ihb, ihc, ihd⟩ := ih (pos + 1) (fl - w.rows) 0
            (if w.rows ≠ 0 then acc ++ [⟨w, pos + 1, w.rows⟩] else acc)
            (fun _ => rfl)
          refine ⟨?_, ihb, ihc, by omega⟩
          rw [sumRowsE_condAppend] at iha
          omega
      · rw [fillBelowLoop_stop (w :: rest2) pos fl tb acc hfl]
        refine ⟨by dsimp only; omega, by dsimp only; omega,
          by dsimp only; omega, by dsimp only; omega⟩

/-- Accounting invariant of the step-4 loop: the appended rows minus the
trim change equal the offset change; the offset change is exactly the
requested fill unless the stream was exhausted; the offset never grows by
more than the requested fill. -/
theorem fillAbove4Loop_spec (rest : List Widget) :
    ∀ (pos fl or tt : Int) (acc : List Entry), (0 < fl → tt = 0) →
    sumRowsE (fillAbove4Loop rest pos fl or tt acc).fillAbove - sumRowsE acc
        - (fillAbove4Loop rest pos fl or tt acc).trimTop + tt
      = (fillAbove4Loop rest pos fl or tt acc).offsetRows - or
    ∧ ((fillAbove4Loop rest pos fl or tt acc).offsetRows - or = max fl 0 ∨
        (fillAbove4Loop rest pos fl or tt acc).rest = [])
    ∧ (fillAbove4Loop rest pos fl or tt acc).offsetRows ≤ or + max fl 0
    ∧ (0 ≤ tt → 0 ≤ (fillAbove4Loop rest pos fl or tt acc).trimTop) := by
  induction rest with
  | nil =>
      intro pos fl or tt acc h0
      by_cases hfl : fl > 0
      · rw [fillAbove4Loop_nil pos fl or tt acc hfl]
        refine ⟨by dsimp only; omega, Or.inr rfl, by dsimp only; omega,
          by dsimp only; omega⟩
      · rw [fillAbove4Loop_stop [] pos fl or tt acc hfl]
        refine ⟨by dsimp only; omega, Or.inl (by dsimp only; omega),
          by dsimp only; omega, by dsimp only; omega⟩
  | cons w rest2 ih =>
      intro pos fl or tt acc h0
      by_cases hfl : fl > 0
      · rw [fillAbove4Loop_cons w rest2 pos fl or tt acc hfl]
        have htt : tt = 0 := h0 hfl
        subst htt
        by_cases hcross : (w.rows : Int) > fl
        · rw [if_pos hcross]
          refine ⟨?_, Or.inl (by dsimp only; omega), by dsimp only; omega,
            by dsimp only; omega⟩
          dsimp only
          rw [sumRowsE_append_single]
          dsimp only
          omega
        · rw [if_neg hcross]
          obtain ⟨iha, ihb, ihc, ihd⟩ := ih (pos - 1) (fl - w.rows)
            (or + w.rows) 0 (acc ++ [⟨w, pos - 1, w.rows⟩]) (fun _ => rfl)
          rw [sumRowsE_append_single] at iha
          dsimp only at iha
          refine ⟨by omega, ?_, by omega, ihd⟩
          rcases ihb with hb | hb
          · exact Or.inl (by omega)
          · exact Or.inr hb
      · rw [fillAbove4Loop_stop (w :: rest2) pos fl or tt acc hfl]
        refine ⟨by dsimp only; omega, Or.inl (by dsimp only; omega),
          by dsimp only; omega, by dsimp only; omega⟩

theorem lastPosD_append (acc : List Entry) (e : Entry) (d : Int) :
    lastPosD (acc ++ [e]) d = e.pos := by
  unfold lastPosD
  rw [List.getLast?_concat]
  rfl

theorem lastPosD_condAppend (acc : List Entry) (w : Widget) (p d : Int)
    (hw : 1 ≤ w.rows) :
    lastPosD (if w.rows ≠ 0 then acc ++ [⟨w, p, w.rows⟩] else acc) d = p := by
  rw [if_pos (by omega)]
  exact lastPosD_append acc ⟨w, p, w.rows⟩ d

theorem aboveCoh_nil {b : Body} {p : Int} (h : AboveCoh b [] p) :
    b.getPrev p = (none, none) := by
  obtain ⟨hp, hdrop⟩ := h
  have hlen : b.before.length ≤ (-p).toNat := by
    by_contra hcon
    push_neg at hcon
    have hld := congrArg List.length hdrop
    rw [List.length_drop] at hld
    simp only [List.length_nil] at hld
    omega
  have hwid : b.wid (p - 1) = none := by
    unfold Body.wid
    rw [if_neg (by omega), if_neg (by omega)]
    exact List.get?_eq_none.mpr (by omega)
  unfold Body.getPrev
  rw [hwid]

theorem aboveCoh_cons {b : Body} {w : Widget} {r : List Widget} {p : Int}
    (h : AboveCoh b (w :: r) p) : AboveCoh b r (p - 1) ∧ w ∈ b.before := by
  obtain ⟨hp, hdrop⟩ := h
  refine ⟨⟨by omega, ?_⟩, ?_⟩
  · have htl := congrArg List.tail hdrop
    simp only [List.tail_cons, List.tail_drop] at htl
    rw [htl]
    congr 1
    omega
  · exact List.mem_of_mem_drop (by rw [← hdrop]; exact List.mem_cons_self w r)

theorem belowCoh_nil {b : Body} {p : Int} (h : BelowCoh b [] p) :
    b.getNext p = (none, none) := by
  obtain ⟨hp, hdrop⟩ := h
  have hlen : b.after.length ≤ p.toNat := by
    by_contra hcon
    push_neg at hcon
    have hld := congrArg List.length hdrop
    rw [List.length_drop] at hld
    simp only [List.length_nil] at hld
    omega
  have hwid : b.wid (p + 1) = none := by
    unfold Body.wid
    rw [if_neg (by omega), if_pos (by omega)]
    exact List.get?_eq_none.mpr (by omega)
  unfold Body.getNext
  rw [hwid]

theorem belowCoh_cons {b : Body} {w : Widget} {r : List Widget} {p : Int}
    (h : BelowCoh b (w :: r) p) : BelowCoh b r (p + 1) ∧ w ∈ b.after := by
  obtain ⟨hp, hdrop⟩ := h
  refine ⟨⟨by omega, ?_⟩, ?_⟩
  · have htl := congrArg List.tail hdrop
    simp only [List.tail_cons, List.tail_drop] at htl
    rw [htl]
    congr 1
    omega
  · exact List.mem_of_mem_drop (by rw [← hdrop]; exact List.mem_cons_self w r)

/-- Positional coherence of the step-2 loop, for bodies whose above-focus
widgets all have at least one row: the loop's final `top_pos` is the
position of the last collected entry, and the remaining stream sits
exactly above it. -/
theorem fillAboveLoop_coh (b : Body) (rest : List Widget) :
    ∀ (pos fl or tt : Int) (acc : List Entry),
      (∀ w ∈ rest, 1 ≤ w.rows) → AboveCoh b rest pos → lastPosD acc 0 = pos →
      AboveCoh b (fillAboveLoop rest pos fl or tt acc pos).rest
          (fillAboveLoop rest pos fl or tt acc pos).topPos
      ∧ lastPosD (fillAboveLoop rest pos fl or tt acc pos).fillAbove 0
          = (fillAboveLoop rest pos fl or tt acc pos).topPos := by
  induction rest with
  | nil =>
      intro pos fl or tt acc hw hcoh hlp
      by_cases hfl : fl > 0
      · rw [fillAboveLoop_nil pos fl or tt acc pos hfl]
        exact ⟨hcoh, hlp⟩
      · rw [fillAboveLoop_stop [] pos fl or tt acc pos hfl]
        exact ⟨hcoh, hlp⟩
  | cons w rest2 ih =>
      intro pos fl or tt acc hw hcoh hlp
      by_cases hfl : fl > 0
      · rw [fillAboveLoop_cons w rest2 pos fl or tt acc pos hfl]
        have hw1 : 1 ≤ w.rows := hw w (List.mem_cons_self w rest2)
        by_cases hcross : (w.rows : Int) > fl
        · rw [if_pos hcross]
          refine ⟨(aboveCoh_cons hcoh).1, ?_⟩
          exact lastPosD_condAppend acc w (pos - 1) 0 hw1
        · rw [if_neg hcross]
          exact ih (pos - 1) (fl - w.rows) or tt
            (if w.rows ≠ 0 then acc ++ [⟨w, pos - 1, w.rows⟩] else acc)
            (fun x hx => hw x (List.mem_cons_of_mem w hx))
            (aboveCoh_cons hcoh).1
            (lastPosD_condAppend acc w (pos - 1) 0 hw1)
      · rw [fillAboveLoop_stop (w :: rest2) pos fl or tt acc pos hfl]
        exact ⟨hcoh, hlp⟩

/-- Positional coherence of the step-4 loop (entries are appended without
any row filter, so no row hypothesis is needed): the remaining stream sits
exactly above the last collected entry. -/
theorem fillAbove4Loop_coh (b : Body) (rest : List Widget) :
    ∀ (pos fl or tt : Int) (acc : List Entry),
      AboveCoh b rest pos → lastPosD acc 0 = pos →
      AboveCoh b (fillAbove4Loop rest pos fl or tt acc).rest
          (lastPosD (fillAbove4Loop rest pos fl or tt acc).fillAbove 0) := by
  induction rest with
  | nil =>
      intro pos fl or tt acc hcoh hlp
      by_cases hfl : fl > 0
      · rw [fillAbove4Loop_nil pos fl or tt acc hfl]
        dsimp only
        rw [hlp]
        exact hcoh
      · rw [fillAbove4Loop_stop [] pos fl or tt acc hfl]
        dsimp only
        rw [hlp]
        exact hcoh
  | cons w rest2 ih =>
      intro pos fl or tt acc hcoh hlp
      by_cases hfl : fl > 0
      · rw [fillAbove4Loop_cons w rest2 pos fl or tt acc hfl]
        by_cases hcross : (w.rows : Int) > fl
        · rw [if_pos hcross]
          dsimp only
          rw [lastPosD_append]
          exact (aboveCoh_cons hcoh).1
        · rw [if_neg hcross]
          exact ih (pos - 1) (fl - w.rows) (or + w.rows) tt
            (acc ++ [⟨w, pos - 1, w.rows⟩]) (aboveCoh_cons hcoh).1
            (lastPosD_append acc ⟨w, pos - 1, w.rows⟩ 0)
      · rw [fillAbove4Loop_stop (w :: rest2) pos fl or tt acc hfl]
        dsimp only
        rw [hlp]
        exact hcoh

/-- Positional coherence of the step-3 loop, for bodies whose below-focus
widgets all have at least one row: the remaining stream sits exactly below
the last collected entry. -/
theorem fillBelowLoop_coh (b : Body) (rest : List Widget) :
    ∀ (pos fl tb : Int) (acc : List Entry),
      (∀ w ∈ rest, 1 ≤ w.rows) → BelowCoh b rest pos → lastPosD acc 0 = pos →
      BelowCoh b (fillBelowLoop rest pos fl tb acc).rest
          (lastPosD (fillBelowLoop rest pos fl tb acc).fillBelow 0) := by
  induction rest with
  | nil =>
      intro pos fl tb acc hw hcoh hlp
      by_cases hfl : fl > 0
      · rw [fillBelowLoop_nil pos fl tb acc hfl]
        dsimp only
        rw [hlp]
        exact hcoh
      · rw [fillBelowLoop_stop [] pos fl tb acc hfl]
        dsimp only
        rw [hlp]
        exact hcoh
  | cons w rest2 ih =>
      intro pos fl tb acc hw hcoh hlp
      by_cases hfl : fl > 0
      · rw [fillBelowLoop_cons w rest2 pos fl tb acc hfl]
        have hw1 : 1 ≤ w.rows := hw w (List.mem_cons_self w rest2)
        by_cases hcross : (w.rows : Int) > fl
        · rw [if_pos hcross]
          dsimp only
          rw [lastPosD_condAppend acc w (pos + 1) 0 hw1]
          exact (belowCoh_cons hcoh).1
        · rw [if_neg hcross]
          exact ih (pos + 1) (fl - w.rows) tb
            (if w.rows ≠ 0 then acc ++ [⟨w, pos + 1, w.rows⟩] else acc)
            (fun x hx => hw x (List.mem_cons_of_mem w hx))
            (belowCoh_cons hcoh).1
            (lastPosD_condAppend acc w (pos + 1) 0 hw1)
      · rw [fillBelowLoop_stop (w :: rest2) pos fl tb acc hfl]
        dsimp only
        rw [hlp]
        exact hcoh

theorem clampOffset_facts (maxrow : Nat) (o0 : Int) (hmr : 1 ≤ maxrow) :
    clampOffset maxrow o0 ≤ (maxrow : Int) - 1 ∧
    (0 ≤ o0 → 0 ≤ clampOffset maxrow o0) ∧
    (0 < clampOffset maxrow o0 → 0 < o0) := by
  unfold clampOffset
  by_cases h : maxrow ≠ 0 ∧ o0 ≥ (maxrow : Int)
  · rw [if_pos h]
    exact ⟨le_refl _, fun _ => by omega, fun _ => by omega⟩
  · rw [if_neg h]
    have hlt : ¬ o0 ≥ (maxrow : Int) := fun hcon => h ⟨by omega, hcon⟩
    exact ⟨by omega, fun h2 => h2, fun h2 => h2⟩

/-- State invariants established by steps 0-1 of `calculate_visible`: after
the clamp and the cursor adjustment, the offset stays below the viewport,
the inset is non-negative, and a positive offset forces a zero inset. -/
theorem adjustForCursor_facts (b : Body) (maxrow : Nat) (focus : Bool)
    (o0 i0 : Int) (hmr : 1 ≤ maxrow) (hi0 : 0 ≤ i0) (hio : 0 < i0 → o0 = 0) :
    (adjustForCursor maxrow (visibleCursor b maxrow focus)
        (clampOffset maxrow o0) i0).1 ≤ (maxrow : Int) - 1 ∧
    0 ≤ (adjustForCursor maxrow (visibleCursor b maxrow focus)
        (clampOffset maxrow o0) i0).2 ∧
    (0 < (adjustForCursor maxrow (visibleCursor b maxrow focus)
        (clampOffset maxrow o0) i0).1 →
      (adjustForCursor maxrow (visibleCursor b maxrow focus)
        (clampOffset maxrow o0) i0).2 = 0) ∧
    (0 ≤ o0 → 0 ≤ (adjustForCursor maxrow (visibleCursor b maxrow focus)
        (clampOffset maxrow o0) i0).1) := by
  obtain ⟨hc1, hc2, hc3⟩ := clampOffset_facts maxrow o0 hmr
  have hio1 : 0 < clampOffset maxrow o0 → i0 = 0 := by
    intro h
    by_cases hp : 0 < i0
    · have := hio hp
      have := hc3 h
      omega
    · omega
  have hcz : i0 ≠ 0 → clampOffset maxrow o0 = 0 := by
    intro h
    have ho00 : o0 = 0 := hio (by omega)
    unfold clampOffset
    rw [ho00, if_neg (by omega)]
  cases hvc : visibleCursor b maxrow focus with
  | none =>
      have hred : adjustForCursor maxrow none (clampOffset maxrow o0) i0
          = (clampOffset maxrow o0, i0) := rfl
      rw [hred]
      exact ⟨hc1, hi0, hio1, hc2⟩
  | some p =>
      obtain ⟨cx, cy⟩ := p
      have hred : adjustForCursor maxrow (some (cx, cy))
            (clampOffset maxrow o0) i0 =
          (if (cy : Int) + clampOffset maxrow o0 - i0 < 0 then
            (clampOffset maxrow o0, (cy : Int))
           else if (cy : Int) + clampOffset maxrow o0 - i0 ≥ (maxrow : Int) then
             (if (maxrow : Int) - (cy : Int) - 1 < 0 then
               ((0 : Int), -((maxrow : Int) - (cy : Int) - 1))
              else ((maxrow : Int) - (cy : Int) - 1, i0))
           else (clampOffset maxrow o0, i0)) := rfl
      rw [hred]
      by_cases h1 : (cy : Int) + clampOffset maxrow o0 - i0 < 0
      · rw [if_pos h1]
        refine ⟨hc1, by omega, ?_, hc2⟩
        intro hpos
        have hi0z := hio1 hpos
        omega
      · rw [if_neg h1]
        by_cases h2 : (cy : Int) + clampOffset maxrow o0 - i0 ≥ (maxrow : Int)
        · rw [if_pos h2]
          by_cases h3 : (maxrow : Int) - (cy : Int) - 1 < 0
          · rw [if_pos h3]
            exact ⟨by omega, by omega, by omega, by omega⟩
          · rw [if_neg h3]
            refine ⟨by omega, hi0, ?_, by omega⟩
            intro hpos
            by_cases hi0z : i0 = 0
            · exact hi0z
            · have := hcz hi0z
              omega
        · rw [if_neg h2]
          exact ⟨hc1, hi0, hio1, hc2⟩

/-- Unfolding `calcVisibleCore` into its pipeline stages. -/
theorem calcVisibleCore_decomp (b : Body) (maxrow : Nat)
    (cursor : Option (Nat × Nat)) (o2 i2 : Int) :
    ∃ a bl a4,
      fillAboveLoop b.before 0 o2 o2 i2 [] 0 = a ∧
      fillBelowLoop b.after 0
          ((maxrow : Int) - (b.focusW.rows : Int) - a.offsetRows + i2)
          (max 0 ((b.focusW.rows : Int) + a.offsetRows - i2 - (maxrow : Int)))
          [] = bl ∧
      fillAbove4Loop a.rest a.topPos
          (if max 0 bl.fillLines > 0 ∧ a.trimTop > 0 then
            (if max 0 bl.fillLines ≤ a.trimTop then 0
             else max 0 bl.fillLines - a.trimTop)
           else max 0 bl.fillLines)
          (if max 0 bl.fillLines > 0 ∧ a.trimTop > 0 then
            (if max 0 bl.fillLines ≤ a.trimTop then
              a.offsetRows + max 0 bl.fillLines
             else a.offsetRows + a.trimTop)
           else a.offsetRows)
          (if max 0 bl.fillLines > 0 ∧ a.trimTop > 0 then
            (if max 0 bl.fillLines ≤ a.trimTop then
              a.trimTop - max 0 bl.fillLines
             else 0)
           else a.trimTop)
          a.fillAbove = a4 ∧
      calcVisibleCore b maxrow cursor o2 i2 =
        ⟨⟨a4.offsetRows - i2, b.focusW, 0, b.focusW.rows, cursor⟩,
         a4.trimTop, a4.fillAbove, bl.trimBottom, bl.fillBelow⟩ :=
  ⟨_, _, _, rfl, rfl, rfl, rfl⟩

theorem topmostPos_mk (o : Int) (w : Widget) (r : Nat) (c : Option (Nat × Nat))
    (tt : Int) (fa : List Entry) (tb : Int) (fb : List Entry) :
    topmostPos ⟨⟨o, w, 0, r, c⟩, tt, fa, tb, fb⟩ = lastPosD fa 0 := rfl

theorem bottommostPos_mk (o : Int) (w : Widget) (r : Nat) (c : Option (Nat × Nat))
    (tt : Int) (fa : List Entry) (tb : Int) (fb : List Entry) :
    bottommostPos ⟨⟨o, w, 0, r, c⟩, tt, fa, tb, fb⟩ = lastPosD fb 0 := rfl

/-- The row-accounting invariant of `calculate_visible` steps 2-5, for
bodies whose non-focus widgets all occupy at least one row, under the
offset/inset invariants established by steps 0-1: either the returned rows
minus the trims cover the viewport exactly, or both walks were exhausted,
in which case the topmost returned node has no predecessor and the
bottommost has no successor. -/
theorem calcVisibleCore_accounting (b : Body) (maxrow : Nat)
    (cursor : Option (Nat × Nat)) (o2 i2 : Int)
    (hwb : ∀ w ∈ b.before, 1 ≤ w.rows) (hwa : ∀ w ∈ b.after, 1 ≤ w.rows)
    (ho2 : 0 ≤ o2) (hi2 : 0 ≤ i2) (hio : 0 < o2 → i2 = 0) :
    sumRowsE (calcVisibleCore b maxrow cursor o2 i2).fillAbove
        + ((calcVisibleCore b maxrow cursor o2 i2).middle.rows : Int)
        + sumRowsE (calcVisibleCore b maxrow cursor o2 i2).fillBelow
      = (maxrow : Int) + (calcVisibleCore b maxrow cursor o2 i2).trimTop
        + (calcVisibleCore b maxrow cursor o2 i2).trimBottom
    ∨ (b.getPrev (topmostPos (calcVisibleCore b maxrow cursor o2 i2))
        = (none, none)
       ∧ b.getNext (bottommostPos (calcVisibleCore b maxrow cursor o2 i2))
        = (none, none)) := by
  obtain ⟨a, bl, a4, hA, hBL, hA4, hV⟩ :=
    calcVisibleCore_decomp b maxrow cursor o2 i2
  rw [hV, topmostPos_mk, bottommostPos_mk]
  dsimp only
  obtain ⟨A1, A2, A3⟩ := fillAboveLoop_spec b.before 0 o2 o2 i2 [] 0 hio
  rw [hA, sumRowsE_nil] at A1
  rw [hA] at A2 A3
  have hTa : 0 ≤ a.trimTop := A3 hi2
  obtain ⟨B1, B2, B3, B4⟩ := fillBelowLoop_spec b.after 0
    ((maxrow : Int) - (b.focusW.rows : Int) - a.offsetRows + i2)
    (max 0 ((b.focusW.rows : Int) + a.offsetRows - i2 - (maxrow : Int))) []
    (by intro h; omega)
  rw [hBL, sumRowsE_nil] at B1
  rw [hBL] at B2 B3 B4
  have hcohA := fillAboveLoop_coh b b.before 0 o2 o2 i2 [] hwb
    ⟨le_refl 0, by simp⟩ rfl
  rw [hA] at hcohA
  have hcohB := fillBelowLoop_coh b b.after 0
    ((maxrow : Int) - (b.focusW.rows : Int) - a.offsetRows + i2)
    (max 0 ((b.focusW.rows : Int) + a.offsetRows - i2 - (maxrow : Int))) []
    hwa ⟨le_refl 0, by simp⟩ rfl
  rw [hBL] at hcohB
  generalize hFL : (if max 0 bl.fillLines > 0 ∧ a.trimTop > 0 then
      (if max 0 bl.fillLines ≤ a.trimTop then 0
       else max 0 bl.fillLines - a.trimTop)
     else max 0 bl.fillLines) = FL5 at hA4
  generalize hOR : (if max 0 bl.fillLines > 0 ∧ a.trimTop > 0 then
      (if max 0 bl.fillLines ≤ a.trimTop then
        a.offsetRows + max 0 bl.fillLines
       else a.offsetRows + a.trimTop)
     else a.offsetRows) = OR5 at hA4
  generalize hTT : (if max 0 bl.fillLines > 0 ∧ a.trimTop > 0 then
      (if max 0 bl.fillLines ≤ a.trimTop then
        a.trimTop - max 0 bl.fillLines
       else 0)
     else a.trimTop) = TT5 at hA4
  have hR : a.trimTop - TT5 + max FL5 0 - max 0 bl.fillLines = 0 ∧
      OR5 + max FL5 0 = a.offsetRows + max 0 bl.fillLines ∧
      (bl.fillLines ≤ 0 → FL5 = 0) ∧ (0 < FL5 → TT5 = 0) := by
    by_cases hb1 : max 0 bl.fillLines > 0 ∧ a.trimTop > 0
    · by_cases hb2 : max 0 bl.fillLines ≤ a.trimTop
      · rw [if_pos hb1, if_pos hb2] at hFL hOR hTT
        refine ⟨by omega, by omega, by omega, by omega⟩
      · rw [if_pos hb1, if_neg hb2] at hFL hOR hTT
        refine ⟨by omega, by omega, by omega, by omega⟩
    · rw [if_neg hb1] at hFL hOR hTT
      refine ⟨by omega, by omega, by omega, by omega⟩
  obtain ⟨C1f, C2f, C3f, C4f⟩ :=
    fillAbove4Loop_spec a.rest a.topPos FL5 OR5 TT5 a.fillAbove hR.2.2.2
  rw [hA4] at C1f C2f C3f C4f
  have hcoh4 := fillAbove4Loop_coh b a.rest a.topPos FL5 OR5 TT5 a.fillAbove
    hcohA.1 hcohA.2
  rw [hA4] at hcoh4
  clear hFL hOR hTT hA hBL hV hcohA
  rcases C2f with hC2 | hrest4
  · left
    have hR1 := hR.1
    have hR2 := hR.2.1
    clear hcoh4 hcohB hA4 hR B2 B3 C3f C4f
    omega
  · by_cases hdef : 0 < bl.fillLines
    · right
      have hblrest := B3 hdef
      rw [hblrest] at hcohB
      rw [hrest4] at hcoh4
      exact ⟨aboveCoh_nil hcoh4, belowCoh_nil hcohB⟩
    · left
      push_neg at hdef
      have hFL0 : FL5 = 0 := hR.2.2.1 hdef
      rw [hFL0] at hA4
      rw [fillAbove4Loop_stop a.rest a.topPos 0 OR5 TT5 a.fillAbove
        (by omega)] at hA4
      have h1 : a4.offsetRows = OR5 := by rw [← hA4]
      have h2 : a4.trimTop = TT5 := by rw [← hA4]
      have h3 : sumRowsE a4.fillAbove = sumRowsE a.fillAbove := by rw [← hA4]
      have hR1 := hR.1
      have hR2 := hR.2.1
      clear hcoh4 hcohB hA4 hR B3 C1f C3f C4f
      omega

/-- The offset bound of `calculate_visible` steps 2-5, for a focus widget
of at least one row: the final reported focus offset stays below the
viewport height. -/
theorem calcVisibleCore_offset_bound (b : Body) (maxrow : Nat)
    (cursor : Option (Nat × Nat)) (o2 i2 : Int)
    (hF : 1 ≤ b.focusW.rows) (ho2top : o2 ≤ (maxrow : Int) - 1)
    (hi2 : 0 ≤ i2) (hio : 0 < o2 → i2 = 0) :
    (calcVisibleCore b maxrow cursor o2 i2).middle.offset
      ≤ (maxrow : Int) - 1 := by
  obtain ⟨a, bl, a4, hA, hBL, hA4, hV⟩ :=
    calcVisibleCore_decomp b maxrow cursor o2 i2
  rw [hV]
  dsimp only
  obtain ⟨A1, A2, A3⟩ := fillAboveLoop_spec b.before 0 o2 o2 i2 [] 0 hio
  rw [hA] at A2 A3
  have hTa : 0 ≤ a.trimTop := A3 hi2
  obtain ⟨B1, B2, B3, B4⟩ := fillBelowLoop_spec b.after 0
    ((maxrow : Int) - (b.focusW.rows : Int) - a.offsetRows + i2)
    (max 0 ((b.focusW.rows : Int) + a.offsetRows - i2 - (maxrow : Int))) []
    (by intro h; omega)
  rw [hBL, sumRowsE_nil] at B1
  rw [hBL] at B2 B3 B4
  have hsB := sumRowsE_nonneg bl.fillBelow
  generalize hFL : (if max 0 bl.fillLines > 0 ∧ a.trimTop > 0 then
      (if max 0 bl.fillLines ≤ a.trimTop then 0
       else max 0 bl.fillLines - a.trimTop)
     else max 0 bl.fillLines) = FL5 at hA4
  generalize hOR : (if max 0 bl.fillLines > 0 ∧ a.trimTop > 0 then
      (if max 0 bl.fillLines ≤ a.trimTop then
        a.offsetRows + max 0 bl.fillLines
       else a.offsetRows + a.trimTop)
     else a.offsetRows) = OR5 at hA4
  generalize hTT : (if max 0 bl.fillLines > 0 ∧ a.trimTop > 0 then
      (if max 0 bl.fillLines ≤ a.trimTop then
        a.trimTop - max 0 bl.fillLines
       else 0)
     else a.trimTop) = TT5 at hA4
  have hR : OR5 + max FL5 0 = a.offsetRows + max 0 bl.fillLines ∧
      (0 < FL5 → TT5 = 0) := by
    by_cases hb1 : max 0 bl.fillLines > 0 ∧ a.trimTop > 0
    · by_cases hb2 : max 0 bl.fillLines ≤ a.trimTop
      · rw [if_pos hb1, if_pos hb2] at hFL hOR hTT
        refine ⟨by omega, by omega⟩
      · rw [if_pos hb1, if_neg hb2] at hFL hOR hTT
        refine ⟨by omega, by omega⟩
    · rw [if_neg hb1] at hFL hOR hTT
      refine ⟨by omega, by omega⟩
  obtain ⟨C1f, C2f, C3f, C4f⟩ :=
    fillAbove4Loop_spec a.rest a.topPos FL5 OR5 TT5 a.fillAbove hR.2
  rw [hA4] at C1f C2f C3f C4f
  have hR1 := hR.1
  by_cases hbf : 0 ≤ bl.fillLines
  · have hB2 := B2 hbf
    omega
  · omega

theorem getFocusOffsetInset_ok_facts (b : Body) (s : LBState) (o i : Int)
    (h : getFocusOffsetInset b s = .ok (o, i)) :
    o = s.offsetRows ∧ 0 ≤ i ∧ (0 < i → o = 0 ∧ i < (b.focusW.rows : Int)) := by
  simp only [getFocusOffsetInset] at h
  split at h
  · rename_i hz
    split at h
    · exact absurd h (by simp)
    · rename_i hchecks
      split at h
      · exact absurd h (by simp)
      · rename_i hins
        simp only [Except.ok.injEq, Prod.mk.injEq] at h
        obtain ⟨ho, hi⟩ := h
        push_neg at hchecks
        push_neg at hins
        refine ⟨ho.symm, ?_, ?_⟩
        · rw [← hi]
          exact Int.fdiv_nonneg
            (mul_nonneg (Int.ofNat_nonneg _) hchecks.1) hchecks.2.1
        · intro hpos
          refine ⟨by omega, ?_⟩
          rw [← hi]
          exact hins (by omega)
  · rename_i hz
    simp only [Except.ok.injEq, Prod.mk.injEq] at h
    obtain ⟨ho, hi⟩ := h
    exact ⟨ho.symm, by omega, fun hpos => absurd hi (by omega)⟩

theorem getFocusOffsetInset_after_shift (b : Body) (s s2 : LBState)
    (maxrow : Nat) (o i : Int) (hso : 0 ≤ s.offsetRows)
    (hoi : getFocusOffsetInset b s = .ok (o, i))
    (hshift : shiftFocus b s maxrow (o - i) = .ok s2) :
    getFocusOffsetInset b s2 = .ok (o, i) := by
  obtain ⟨ho, hi0, hip⟩ := getFocusOffsetInset_ok_facts b s o i hoi
  simp only [shiftFocus] at hshift
  by_cases hnn : 0 ≤ o - i
  · rw [if_pos hnn] at hshift
    split at hshift
    · exact absurd hshift (by simp)
    · rename_i hlt
      simp only [Except.ok.injEq] at hshift
      subst hshift
      have hiz : i = 0 := by
        by_cases hpos : 0 < i
        · have := hip hpos
          omega
        · omega
      subst hiz
      simp only [getFocusOffsetInset]
      by_cases ho0 : o - 0 = 0
      · rw [if_pos ho0]
        rw [if_neg (by simp)]
        rw [if_neg (by simp [Int.zero_fdiv])]
        simp only [Except.ok.injEq, Prod.mk.injEq]
        constructor
        · omega
        · simp [Int.zero_fdiv]
      · rw [if_neg ho0]
        simp only [Except.ok.injEq, Prod.mk.injEq]
        exact ⟨by omega, trivial⟩
  · rw [if_neg hnn] at hshift
    split at hshift
    · exact absurd hshift (by simp)
    · rename_i hkeep
      simp only [Except.ok.injEq] at hshift
      subst hshift
      have hipos : 0 < i := by omega
      obtain ⟨hoz, hiF⟩ := hip hipos
      subst hoz
      have hF : (0 : Int) < (b.focusW.rows : Int) := by omega
      simp only [getFocusOffsetInset]
      rw [if_pos trivial]
      rw [if_neg (by simp only [not_or]; refine ⟨by omega, by omega, by omega⟩)]
      have hinset : ((b.focusW.rows : Int) * -(0 - i)).fdiv (b.focusW.rows : Int)
          = i := by
        rw [show -(0 - i) = i by ring]
        exact Int.mul_fdiv_cancel_left i (by omega)
      rw [if_neg (by rw [hinset]; omega)]
      rw [hinset]

/-- Claim C8: with no pending focus change and a non-negative stored
offset (the engine never stores a negative one), shifting the focus to the
very offset just reported by `get_focus_offset_inset` — offset minus inset
— is a no-op: when the shift succeeds, the next `calculate_visible` over
the new state returns exactly the window of the old state. -/
theorem shift_to_reported_offset_noop (b : Body) (s s2 : LBState)
    (maxrow : Nat) (focus : Bool) (o i : Int) (hso : 0 ≤ s.offsetRows)
    (hoi : getFocusOffsetInset b s = .ok (o, i))
    (hshift : shiftFocus b s maxrow (o - i) = .ok s2) :
    calcVisible b s2 maxrow focus = calcVisible b s maxrow focus := by
  have h2 := getFocusOffsetInset_after_shift b s s2 maxrow o i hso hoi hshift
  unfold calcVisible
  rw [hoi, h2]

/-- Claim C1 (amended): for every non-empty body whose non-focus widgets
all occupy at least one row, a non-negative stored `offset_rows` (the
engine never stores a negative one) and viewport height at least 1, after
a successful `calculate_visible` the rows of all returned nodes minus the
trims cover the viewport height exactly, unless the structural top edge
(topmost returned node has no predecessor) and the structural bottom edge
(bottommost returned node has no successor) are both inside the
viewport. -/
theorem viewport_row_accounting (b : Body) (s : LBState) (maxrow : Nat)
    (focus : Bool) (v : VisResult)
    (hwb : ∀ w ∈ b.before, 1 ≤ w.rows) (hwa : ∀ w ∈ b.after, 1 ≤ w.rows)
    (hmr : 1 ≤ maxrow) (hso : 0 ≤ s.offsetRows)
    (hcv : calcVisible b s maxrow focus = .ok v) :
    sumRowsE v.fillAbove + (v.middle.rows : Int) + sumRowsE v.fillBelow
      = (maxrow : Int) + v.trimTop + v.trimBottom
    ∨ (b.getPrev (topmostPos v) = (none, none)
       ∧ b.getNext (bottommostPos v) = (none, none)) := by
  simp only [calcVisible] at hcv
  split at hcv
  · exact absurd hcv (by simp)
  · rename_i o0 i0 heq
    simp only [Except.ok.injEq] at hcv
    subst hcv
    obtain ⟨hos, hi00, hip⟩ := getFocusOffsetInset_ok_facts b s o0 i0 heq
    obtain ⟨hj1, hj2, hj3, hj4⟩ := adjustForCursor_facts b maxrow focus o0 i0
      hmr hi00 (fun h => (hip h).1)
    exact calcVisibleCore_accounting b maxrow (visibleCursor b maxrow focus)
      _ _ hwb hwa (hj4 (by omega)) hj2 hj3

/-- Witness for C1 (amended): one focus row plus one row below exactly
cover a 2-row viewport with no trims. -/
theorem viewport_row_accounting_witness :
    sumRowsE ([] : List Entry) + ((1 : Nat) : Int) + sumRowsE [⟨wX1, 1, 1⟩]
      = ((2 : Nat) : Int) + 0 + 0
    ∨ (bC1w.getPrev (topmostPos ⟨⟨0, wF1, 0, 1, none⟩, 0, [], 0,
        [⟨wX1, 1, 1⟩]⟩) = (none, none)
       ∧ bC1w.getNext (bottommostPos ⟨⟨0, wF1, 0, 1, none⟩, 0, [], 0,
        [⟨wX1, 1, 1⟩]⟩) = (none, none)) :=
  viewport_row_accounting bC1w ⟨0, (0, 1)⟩ 2 false
    ⟨⟨0, wF1, 0, 1, none⟩, 0, [], 0, [⟨wX1, 1, 1⟩]⟩
    (by simp [bC1w]) (by intro w hw; simp [bC1w, wX1] at hw; simp [hw, wX1])
    (by omega) (by decide) rfl

/-- Claim C10 (amended): for a focus widget of at least one row and a
viewport of height at least 1, the focus row offset reported by a
successful `calculate_visible` is at most `maxrow - 1` — even when the
stored `offset_rows` is at least `maxrow`, which the engine silently
clamps instead of failing. -/
theorem calcVisible_offset_at_most (b : Body) (s : LBState) (maxrow : Nat)
    (focus : Bool) (v : VisResult) (hF : 1 ≤ b.focusW.rows)
    (hmr : 1 ≤ maxrow) (hcv : calcVisible b s maxrow focus = .ok v) :
    v.middle.offset ≤ (maxrow : Int) - 1 := by
  simp only [calcVisible] at hcv
  split at hcv
  · exact absurd hcv (by simp)
  · rename_i o0 i0 heq
    simp only [Except.ok.injEq] at hcv
    subst hcv
    obtain ⟨hos, hi00, hip⟩ := getFocusOffsetInset_ok_facts b s o0 i0 heq
    obtain ⟨hj1, hj2, hj3, hj4⟩ := adjustForCursor_facts b maxrow focus o0 i0
      hmr hi00 (fun h => (hip h).1)
    exact calcVisibleCore_offset_bound b maxrow (visibleCursor b maxrow focus)
      _ _ hF hj1 hj2 hj3

/-- Witness for C10 (amended): with a stored offset of 7 on a 3-row
viewport, `calculate_visible` reports focus offset 2 = maxrow - 1. -/
theorem calcVisible_offset_at_most_witness :
    (⟨⟨2, wF1, 0, 1, none⟩, 0, [⟨wA2, -1, 2⟩], 0, []⟩ : VisResult).middle.offset
      ≤ ((3 : Nat) : Int) - 1 :=
  calcVisible_offset_at_most bC10w ⟨7, (0, 1)⟩ 3 false
    ⟨⟨2, wF1, 0, 1, none⟩, 0, [⟨wA2, -1, 2⟩], 0, []⟩
    (by decide) (by omega) rfl

/-- Witness for C8: a focus of 2 rows stored with inset fraction 2/4
reports `(0, 1)`; shifting by `0 - 1` stores inset fraction 1/2, and the
next `calculate_visible` is unchanged. -/
theorem shift_to_reported_offset_noop_witness :
    calcVisible bC8 ⟨0, (1, 2)⟩ 5 false = calcVisible bC8 ⟨0, (2, 4)⟩ 5 false :=
  shift_to_reported_offset_noop bC8 ⟨0, (2, 4)⟩ ⟨0, (1, 2)⟩ 5 false 0 1
    (by decide) rfl rfl

/-- Witness for C2: a focus node declaring 2 rows but rendering a 3-row
canvas makes `render` fail on a 2-row viewport. -/
theorem render_fails_on_layout_inconsistency_witness :
    ∃ e, render bC2 ⟨0, (0, 1)⟩ 2 false = .error e :=
  render_fails_on_layout_inconsistency bC2 ⟨0, (0, 1)⟩ 2 false
    ⟨⟨0, wC2, 0, 2, none⟩, 0, [], 0, []⟩ rfl (Or.inr (Or.inl (by decide)))

end ListBox

end UrwidTrees
